import Mathlib

/-!
Verification of the line-oriented YAML patch-editing core of
`.github/workflows/modify_patches.py` (and its near-duplicate copy in
`version_upgrade.py`) from the oracle-toolkit repository.

Modelling conventions:
* a Python text line (without its trailing newline) is a `Line := List Char`;
* the target file is a `Buffer := List Line`;
* every Python function that reads the file, edits the line list and
  rewrites the file becomes a pure Lean function from the buffer it
  reads to the buffer it writes;
* `sys.exit(1)` and uncaught exceptions are modelled with `Option`
  (`none` = the process dies, and in every such path of the modelled
  functions the death happens before the file is rewritten);
* the delete helpers return a `DelRes`, distinguishing "returned
  without opening the file for writing" from "rewrote the file".
-/

abbrev Line : Type := List Char

abbrev Buffer : Type := List Line

/-- Python whitespace (the ASCII part of `str.strip` / regex `\s`,
which is all that the repository's files contain). -/
def isPySpace (c : Char) : Bool :=
  c = ' ' || c = '\t' || c = '\n' || c = '\r' || c = '\x0b' || c = '\x0c'

/-- Drop leading Python whitespace (models a leading regex `\s*`). -/
def dropWS (l : Line) : Line := l.dropWhile isPySpace

/-- Python `str.strip()`. -/
def pyStrip (l : Line) : Line :=
  ((l.dropWhile isPySpace).reverse.dropWhile isPySpace).reverse

/-- Python `line.startswith(p)`, also used for `re.match` with a
literal pattern. -/
def startsL (p : Line) (l : Line) : Bool := List.isPrefixOf p l

/-- Read `lines[i]`; all theorems keep `i` in range, where this agrees
with Python. -/
def lineD (lines : Buffer) (i : Nat) : Line := lines.getD i []

/-- Python `list.insert(i, x)`: insert before position `i`, append when
`i ≥ len(l)`. -/
def pyInsert (i : Nat) (x : Line) (l : Buffer) : Buffer :=
  l.take i ++ x :: l.drop i

/-- Python `del l[s:e]` (a slice deletion; removes nothing when `e ≤ s`). -/
def pyDelSlice (s e : Nat) (l : Buffer) : Buffer :=
  if e ≤ s then l else l.take s ++ l.drop e

/-- Python `del l[m]`; `none` models the IndexError raised when `m` is
out of range. -/
def pyDelAt (m : Nat) (l : Buffer) : Option Buffer :=
  if m < l.length then some (l.take m ++ l.drop (m + 1)) else none

/-- Python `line.strip() == ""`. -/
def isBlankLine (l : Line) : Bool := (pyStrip l).isEmpty

/-- First index at or after the head position `i` whose line satisfies
`p` (the head of `ls` sits at index `i` of the whole buffer). -/
def findFromAux (p : Line → Bool) : Buffer → Nat → Option Nat
  | [], _ => none
  | l :: ls, i => if p l then some i else findFromAux p ls (i + 1)

/-- First index `j ≥ s` with `p (lines[j])`, as Python's
`for i, line in enumerate(lines)` searches compute it. -/
def findIdxFrom (p : Line → Bool) (lines : Buffer) (s : Nat) : Option Nat :=
  findFromAux p (lines.drop s) s

/-- Insert into a strictly descending list, dropping duplicates. -/
def insSD (x : Nat) : List Nat → List Nat
  | [] => [x]
  | y :: ys => if x > y then x :: y :: ys else if x = y then y :: ys else y :: insSD x ys

/-- Python `sorted(set(l), reverse=True)`. -/
def sortDescDedup (l : List Nat) : List Nat := l.foldr insSD []

/-- Insert a pair into a lexicographically descending list. -/
def insPairDesc (x : Nat × Nat) : List (Nat × Nat) → List (Nat × Nat)
  | [] => [x]
  | y :: ys =>
    if y.1 < x.1 ∨ (x.1 = y.1 ∧ y.2 ≤ x.2) then x :: y :: ys else y :: insPairDesc x ys

/-- Python `sorted(pairs, reverse=True)` (descending lexicographic
order on tuples). -/
def sortPairsDesc (l : List (Nat × Nat)) : List (Nat × Nat) := l.foldr insPairDesc []

/-- Keep the buffer elements whose global index satisfies `p`, the head
of the buffer having index `i`.  Used only to state what the range
deletions amount to. -/
def filterIdx (p : Nat → Bool) : Nat → Buffer → Buffer
  | _, [] => []
  | i, l :: ls => if p i then l :: filterIdx p (i + 1) ls else filterIdx p (i + 1) ls

/-- Does some half-open range of the list cover index `i`? -/
def coveredBy (ranges : List (Nat × Nat)) (i : Nat) : Bool :=
  ranges.any (fun r => r.1 ≤ i && i < r.2)

/-- Shared tail of the two field regexes: given that `l` starts with
the keyword, match `\s*:\s*(.+)$` after it and return the stripped
group.  On a line without its newline, `(.+)$` succeeds exactly when
something (possibly whitespace) follows the colon, and the stripped
group is then the stripped remainder. -/
def matchKwColonRest (kw : Line) (l : Line) : Option Line :=
  if startsL kw l then
    match dropWS (l.drop kw.length) with
    | ':' :: rest => if rest.isEmpty then none else some (pyStrip rest)
    | _ => none
  else none

/-- Models `re.match(r'^\s*-\s*name\s*:\s*(.+)$', line)` followed by
`.group(1).strip()` (`none` = no match). -/
def matchNameField (l : Line) : Option Line :=
  match dropWS l with
  | '-' :: r => matchKwColonRest ("name".toList) (dropWS r)
  | _ => none

/-- Models `re.match(r'^\s*version\s*:\s*(.+)$', line)` followed by
`.group(1).strip()`. -/
def matchVersionField (l : Line) : Option Line :=
  matchKwColonRest ("version".toList) (dropWS l)

/-- Characters that end the group of `re.search(r'release\s*:\s*"?([^",\x7d]+)"?', line)`. -/
def isRelBad (c : Char) : Bool := c = '"' || c = ',' || c = '\x7d'

/-- One attempted match of the release regex at a fixed start position,
with Python's backtracking resolved into a decision tree (the pattern
has no anchor after the optional closing quote, so a failure of the
greedy path can still succeed with the group matching the whitespace
that `\s*` gave back; the group is then pure whitespace and strips to
the empty string).  Returns `.group(1).strip()`. -/
def matchReleaseAt (l : Line) : Option Line :=
  if startsL ("release".toList) l then
    match dropWS (l.drop 7) with
    | ':' :: r =>
      let r1 := dropWS r
      let gaveWS : Bool := r1.length < r.length
      match r1 with
      | [] => if gaveWS then some [] else none
      | '"' :: t =>
        let g := t.takeWhile (fun c => !isRelBad c)
        if g.isEmpty then (if gaveWS then some [] else none) else some (pyStrip g)
      | c :: _ =>
        if isRelBad c then (if gaveWS then some [] else none)
        else some (pyStrip (r1.takeWhile (fun c => !isRelBad c)))
    | _ => none
  else none

/-- Models `re.search(r'release\s*:\s*"?([^",\x7d]+)"?', line)` followed by
`.group(1).strip()`: try every start position left to right. -/
def searchRelease : Line → Option Line
  | [] => none
  | c :: rest =>
    match matchReleaseAt (c :: rest) with
    | some g => some g
    | none => searchRelease rest

/-- Parse the pair list of a one-line flow mapping, starting just after
the opening brace (or just after a comma).  Values are either
double-quoted strings (kept verbatim) or unquoted scalars (stripped);
fuel is the remaining line length. -/
def parseFlowPairs : Nat → Line → List (Line × Line) → Option (List (Line × Line))
  | 0, _, _ => none
  | fuel + 1, l, acc =>
    let l1 := dropWS l
    let key := l1.takeWhile (fun c => c ≠ ':')
    match l1.drop key.length with
    | ':' :: afterColon =>
      let r := dropWS afterColon
      match r with
      | '"' :: t =>
        let v := t.takeWhile (fun c => c ≠ '"')
        match t.drop v.length with
        | '"' :: afterQ =>
          match dropWS afterQ with
          | ',' :: more => parseFlowPairs fuel more ((pyStrip key, v) :: acc)
          | '\x7d' :: tail =>
            if (pyStrip tail).isEmpty then some (((pyStrip key, v) :: acc).reverse) else none
          | _ => none
        | _ => none
      | _ =>
        let v0 := r.takeWhile (fun c => c ≠ ',' && c ≠ '\x7d')
        match r.drop v0.length with
        | ',' :: more => parseFlowPairs fuel more ((pyStrip key, pyStrip v0) :: acc)
        | '\x7d' :: tail =>
          if (pyStrip tail).isEmpty then some (((pyStrip key, pyStrip v0) :: acc).reverse)
          else none
        | _ => none
    | _ => none

/-- Models `yaml.safe_load` on the one-line flow-sequence entries the
patch sections use (`- \x7b k: v, k: v \x7d`, possibly indented),
returning the association list of the single flow mapping.  Blank
lines and comment lines load as YAML `None` and other shapes make the
Python callers raise when they index the result; both are `none` here,
and every theorem that walks a section constrains its lines to the
shapes above, on which this agrees with `yaml.safe_load`. -/
def parseFlowEntry (l : Line) : Option (List (Line × Line)) :=
  match dropWS l with
  | '-' :: r =>
    match dropWS r with
    | '\x7b' :: body => parseFlowPairs (body.length + 1) body []
    | _ => none
  | _ => none

/-- Dictionary access `d[k]` on a parsed flow mapping (`none` models a
KeyError). -/
def lookupField (k : Line) (kv : List (Line × Line)) : Option Line :=
  (kv.find? (fun p => p.1 == k)).map (fun p => p.2)

/-- A `files:` sub-entry of a `gi_software` input record. -/
structure SWFile where
  name : Line
  sha256sum : Line
  md5sum : Line
  alt_name : Line
  alt_sha256sum : Line
  alt_md5sum : Line
deriving DecidableEq

/-- A `gi_software` input record. -/
structure SWRec where
  name : Line
  version : Line
  files : List SWFile
deriving DecidableEq

/-- A `files:` sub-entry of an `rdbms_software` input record. -/
structure RFile where
  name : Line
  sha256sum : Line
  md5sum : Line
deriving DecidableEq

/-- An `rdbms_software` input record; `edition` is a scalar or a list
(Python distinguishes the two with `isinstance(edition, list)`). -/
structure RdbmsSWRec where
  name : Line
  version : Line
  edition : Line ⊕ List Line
  files : List RFile
deriving DecidableEq

/-- A patch input record (`gi_patches` / `rdbms_patches` /
`opatch_patches`; the opatch functions only use four of the fields). -/
structure PatchRec where
  category : Line
  base : Line
  release : Line
  patchnum : Line
  patchfile : Line
  patch_subdir : Line
  prereq_check : Bool
  method : Line
  ocm : Bool
  upgrade : Bool
  md5sum : Line
deriving DecidableEq

/-- Python `str(b).lower()` on a YAML boolean. -/
def pyBoolStr : Bool → Line
  | true => "true".toList
  | false => "false".toList

/-- Section header keys (the `line.strip()` comparison literals). -/
def keyGiSoftware : Line := "gi_software:".toList

def keyRdbmsSoftware : Line := "rdbms_software:".toList

def keyGiInterim : Line := "gi_interim_patches:".toList

def keyOpatch : Line := "opatch_patches:".toList

def keyGiPatches : Line := "gi_patches:".toList

def keyRdbmsPatches : Line := "rdbms_patches:".toList

/-- Python `str.splitlines()` for strings whose only line breaks are
`\n`. -/
def pySplitlines (l : Line) : List Line :=
  if l.isEmpty then []
  else if l.getLast? = some '\n' then (l.splitOn '\n').dropLast
  else l.splitOn '\n'

/-- Python `"\n".join(ls)`. -/
def joinNL (ls : List Line) : Line := List.intercalate ['\n'] ls

/-- The file template of `gi_software_compile_patch` (one `files:`
sub-entry; the Python source string contains one embedded newline). -/
def fmtSWFile (f : SWFile) : Line :=
  "      - \x7b name: \"".toList ++ pyStrip f.name
    ++ "\", sha256sum: \"".toList ++ pyStrip f.sha256sum
    ++ "\", md5sum: \"".toList ++ pyStrip f.md5sum
    ++ "\",\n          alt_name: \"".toList ++ pyStrip f.alt_name
    ++ "\", alt_sha256sum: \"".toList ++ pyStrip f.alt_sha256sum
    ++ "\", alt_md5sum: \"".toList ++ pyStrip f.alt_md5sum
    ++ "\" \x7d".toList

/-- One compiled `gi_software` block (a single Python list element that
contains embedded newlines), including the final
`"\n".join(patch.splitlines())` normalisation. -/
def fmtGiSwBlock (r : SWRec) : Line :=
  joinNL (pySplitlines
    ("  - name: ".toList ++ pyStrip r.name
      ++ "\n    version: ".toList ++ pyStrip r.version
      ++ "\n    files:\n".toList
      ++ (r.files.map fmtSWFile).flatten))

/-- `gi_software_compile_patch`: build the blocks in input order, then
`patches_list.reverse()`. -/
def giSoftwareCompilePatch (rs : List SWRec) : List Line :=
  (rs.map fmtGiSwBlock).reverse

/-- The file template of `rdbms_software_compile_patch` (the Python
source string starts with an embedded newline). -/
def fmtRFile (f : RFile) : Line :=
  "\n      - \x7b name: \"".toList ++ pyStrip f.name
    ++ "\", sha256sum: \"".toList ++ pyStrip f.sha256sum
    ++ "\", md5sum: \"".toList ++ pyStrip f.md5sum
    ++ "\" \x7d".toList

/-- One compiled `rdbms_software` block (scalar edition on one line,
list edition as an indented block). -/
def fmtRdbmsSwBlock (r : RdbmsSWRec) : Line :=
  let base :=
    match r.edition with
    | Sum.inr eds =>
      "  - name: ".toList ++ pyStrip r.name
        ++ "\n    version: ".toList ++ pyStrip r.version
        ++ "\n    editions:\n".toList
        ++ joinNL (eds.map (fun e => "      - ".toList ++ pyStrip e))
        ++ "\n    files:".toList
    | Sum.inl e =>
      "  - name: ".toList ++ pyStrip r.name
        ++ "\n    version: ".toList ++ pyStrip r.version
        ++ "\n    editions: ".toList ++ pyStrip e
        ++ "\n    files:".toList
  joinNL (pySplitlines (base ++ (r.files.map fmtRFile).flatten))

/-- `rdbms_software_compile_patch`: build the blocks in input order.
Unlike the gi variant, the source does NOT reverse this list. -/
def rdbmsSoftwareCompilePatch (rs : List RdbmsSWRec) : List Line :=
  rs.map fmtRdbmsSwBlock

/-- The one-line entry `opatch_patch_compile_patch` emits (the Python
string carries a trailing newline, which the buffer representation
leaves implicit). -/
def fmtOpatch (p : PatchRec) : Line :=
  "  - \x7b category: \"OPatch\", release: \"".toList ++ pyStrip p.release
    ++ "\", patchnum: \"".toList ++ pyStrip p.patchnum
    ++ "\", patchfile: \"".toList ++ pyStrip p.patchfile
    ++ "\", md5sum: \"".toList ++ pyStrip p.md5sum
    ++ "\" \x7d".toList

/-- `opatch_patch_compile_patch`. -/
def opatchPatchCompilePatch (ps : List PatchRec) : List Line :=
  ps.map fmtOpatch

/-- The one-line flow entry both `gi_patches_insert_patch` and
`rdbms_patches_insert_patch` format (identical format strings in the
source; trailing newline again implicit). -/
def fmtPatchFlowLine (p : PatchRec) : Line :=
  "  - \x7b category: \"".toList ++ pyStrip p.category
    ++ "\", base: \"".toList ++ pyStrip p.base
    ++ "\", release: \"".toList ++ pyStrip p.release
    ++ "\", patchnum: \"".toList ++ pyStrip p.patchnum
    ++ "\", patchfile: \"".toList ++ pyStrip p.patchfile
    ++ "\", patch_subdir: \"".toList ++ pyStrip p.patch_subdir
    ++ "\", prereq_check: ".toList ++ pyBoolStr p.prereq_check
    ++ ", method: \"".toList ++ pyStrip p.method
    ++ "\", ocm: ".toList ++ pyBoolStr p.ocm
    ++ ", upgrade: ".toList ++ pyBoolStr p.upgrade
    ++ ", md5sum: \"".toList ++ pyStrip p.md5sum
    ++ "\" \x7d".toList

/-- Outcome of a delete helper: the process died before writing
(IndexError), the helper returned before opening the file for writing,
or the helper rewrote the file with the given contents. -/
inductive DelRes where
  | crash : DelRes
  | noWrite : DelRes
  | wrote : Buffer → DelRes
deriving DecidableEq

/-- Entry marker of the software sections, `re.match(r'^  - name:', line)`. -/
def markerNameL (l : Line) : Bool := startsL ("  - name:".toList) l

/-- Entry marker of the interim-patch section, `re.match(r'^  - category:', line)`. -/
def markerCategoryL (l : Line) : Bool := startsL ("  - category:".toList) l

/-- Backward scan of the delete helpers: `for find_range in range(0, 10)`
over `idx = match_line - find_range`, breaking below zero, looking for
the marker.  `k` is the current offset and the second argument the
remaining iterations. -/
def fsAux (marker : Line → Bool) (lines : Buffer) (m : Nat) : Nat → Nat → Option Nat
  | _, 0 => none
  | k, fuel + 1 =>
    if k > m then none
    else if marker (lineD lines (m - k)) then some (m - k)
    else fsAux marker lines m (k + 1) fuel

/-- Block start for `software_delete_duplicates` (10-line backward
window including the match line itself). -/
def findStartSW (lines : Buffer) (m : Nat) : Option Nat :=
  fsAux markerNameL lines m 0 10

/-- Block start for `gi_interim_delete_duplicates`. -/
def findStartInterim (lines : Buffer) (m : Nat) : Option Nat :=
  fsAux markerCategoryL lines m 0 10

/-- Forward scan of the delete helpers: `for find_range in range(1, 20)`
over `idx = match_line + find_range`, breaking at the end of the
buffer, looking for a stop line. -/
def feAux (stop : Line → Bool) (lines : Buffer) (m : Nat) : Nat → Nat → Option Nat
  | _, 0 => none
  | k, fuel + 1 =>
    if lines.length ≤ m + k then none
    else if stop (lineD lines (m + k)) then some (m + k)
    else feAux stop lines m (k + 1) fuel

/-- Block end for `software_delete_duplicates`: the next marker line in
the forward window, else the end of the buffer. -/
def findEndSW (lines : Buffer) (m : Nat) : Nat :=
  (feAux markerNameL lines m 1 19).getD lines.length

/-- Block end for `gi_interim_delete_duplicates`: next marker line or
blank line in the forward window, else the end of the buffer. -/
def findEndInterim (lines : Buffer) (m : Nat) : Nat :=
  (feAux (fun l => markerCategoryL l || isBlankLine l) lines m 1 19).getD lines.length

/-- The `removed_ranges` list of `software_delete_duplicates`: one
`(start, end)` pair per deduplicated match index (descending), skipping
indices whose backward scan found no marker. -/
def softwareRanges (mls : List Nat) (lines : Buffer) : List (Nat × Nat) :=
  (sortDescDedup mls).filterMap
    (fun m => (findStartSW lines m).map (fun s => (s, findEndSW lines m)))

/-- The number of `Error: Could not find the start` messages the run
prints. -/
def softwareStartErrs (mls : List Nat) (lines : Buffer) : Nat :=
  (sortDescDedup mls).countP (fun m => (findStartSW lines m).isNone)

/-- The `removed_ranges` list of `gi_interim_delete_duplicates`. -/
def interimRanges (mls : List Nat) (lines : Buffer) : List (Nat × Nat) :=
  (sortDescDedup mls).filterMap
    (fun m => (findStartInterim lines m).map (fun s => (s, findEndInterim lines m)))

/-- The `for start, end in sorted(removed_ranges, reverse=True): del lines[start:end]`
loop. -/
def applyRanges (ranges : List (Nat × Nat)) (lines : Buffer) : Buffer :=
  ranges.foldl (fun ls r => pyDelSlice r.1 r.2 ls) lines

/-- `software_delete_duplicates(match_lines, output_yml)`: returns the
write outcome and the number of start-not-found error messages.  An
out-of-range match index raises IndexError on the first `lines[idx]`
of its backward scan, before anything is written. -/
def softwareDeleteDuplicates (mls : List Nat) (lines : Buffer) : DelRes × Nat :=
  if mls.isEmpty then (DelRes.noWrite, 0)
  else if mls.any (fun m => lines.length ≤ m) then (DelRes.crash, 0)
  else (DelRes.wrote (applyRanges (sortPairsDesc (softwareRanges mls lines)) lines),
        softwareStartErrs mls lines)

/-- `gi_interim_delete_duplicates(match_lines, output_yml)`. -/
def giInterimDeleteDuplicates (mls : List Nat) (lines : Buffer) : DelRes × Nat :=
  if mls.isEmpty then (DelRes.noWrite, 0)
  else if mls.any (fun m => lines.length ≤ m) then (DelRes.crash, 0)
  else (DelRes.wrote (applyRanges (sortPairsDesc (interimRanges mls lines)) lines),
        (sortDescDedup mls).countP (fun m => (findStartInterim lines m).isNone))

/-- The single-line deletions of `patch_delete_duplicates`, in the
descending order Python runs them (`none` = IndexError). -/
def patchDeleteAux : List Nat → Buffer → Option Buffer
  | [], ls => some ls
  | m :: ms, ls =>
    match pyDelAt m ls with
    | some ls' => patchDeleteAux ms ls'
    | none => none

/-- `patch_delete_duplicates(match_lines, output_yml)`. -/
def patchDeleteDuplicates (mls : List Nat) (lines : Buffer) : DelRes :=
  if mls.isEmpty then DelRes.noWrite
  else
    match patchDeleteAux (sortDescDedup mls) lines with
    | some ls => DelRes.wrote ls
    | none => DelRes.crash

/-- The scan of `gi_software_search_duplicates` (and of its
`rdbms_software` twin, which differs only in the key) for ONE record,
over the tail of the buffer: per line it handles, in source order, the
skip-next-line flag, the before-the-section skip state, the
blank-line break, then the name match (which schedules the skip of the
following line) and the `elif` version match. -/
def swScanAux (key name version : Line) : Buffer → Nat → Bool → Bool → List Nat
  | [], _, _, _ => []
  | l :: ls, idx, skip, skipNext =>
    if skipNext then swScanAux key name version ls (idx + 1) skip false
    else if skip then
      if pyStrip l = key then swScanAux key name version ls (idx + 1) false false
      else swScanAux key name version ls (idx + 1) true false
    else if isBlankLine l then []
    else if matchNameField l = some name then
      idx :: swScanAux key name version ls (idx + 1) skip true
    else if matchVersionField l = some version then
      idx :: swScanAux key name version ls (idx + 1) skip false
    else swScanAux key name version ls (idx + 1) skip false

/-- One record's duplicate indices: Python initialises the state flags
on the `idx == 0` iteration and `continue`s, so the scan proper starts
at index 1. -/
def giSwScanRecord (key name version : Line) (lines : Buffer) : List Nat :=
  match lines with
  | [] => []
  | _ :: ls => swScanAux key name version ls 1 true false

/-- The whole `duplicate_indices` list of
`gi_software_search_duplicates`, accumulated over the records (each
record strips its name and version first). -/
def giSoftwareScanAll (rs : List SWRec) (lines : Buffer) : List Nat :=
  rs.foldl (fun acc r => acc ++ giSwScanRecord keyGiSoftware (pyStrip r.name) (pyStrip r.version) lines) []

/-- `gi_software_search_duplicates(gi_software, output_yml)`: scan all
records on the buffer read once, then hand the indices to
`software_delete_duplicates`. -/
def giSoftwareSearchDuplicates (rs : List SWRec) (lines : Buffer) : DelRes × Nat :=
  softwareDeleteDuplicates (giSoftwareScanAll rs lines) lines

/-- Does this line's `strip()` equal the given section key? -/
def isKeyLine (key : Line) (l : Line) : Bool := pyStrip l == key

/-- `gi_software_insert_patch(patches, output_yml)`: find the header
line (for/else: `none` = error + `sys.exit(1)` before any write), then
insert every block at header + 1, each insertion pushing the previous
ones down. -/
def giSoftwareInsertPatch (ps : List Line) (lines : Buffer) : Option Buffer :=
  match findIdxFrom (isKeyLine keyGiSoftware) lines 0 with
  | none => none
  | some i => some (ps.foldl (fun acc p => pyInsert (i + 1) p acc) lines)

/-- `rdbms_software_insert_patch(patches, output_yml)` (same shape as
the gi variant, different key). -/
def rdbmsSoftwareInsertPatch (ps : List Line) (lines : Buffer) : Option Buffer :=
  match findIdxFrom (isKeyLine keyRdbmsSoftware) lines 0 with
  | none => none
  | some i => some (ps.foldl (fun acc p => pyInsert (i + 1) p acc) lines)

/-- `gi_interim_insert_patch(patches, output_yml)`: a single pass that
arms a flag at the header line and inserts all blocks at the first
blank line from there on.  There is NO missing-key error path: when
the header (or a blank line after it) never occurs, the loop just
ends and the function rewrites the unchanged lines and prints the
success message.  The total return type records that every path
writes. -/
def giInterimInsertPatch (ps : List Line) (lines : Buffer) : Buffer :=
  match findIdxFrom (isKeyLine keyGiInterim) lines 0 with
  | none => lines
  | some h =>
    match findIdxFrom isBlankLine lines h with
    | none => lines
    | some b => ps.foldl (fun acc p => pyInsert b p acc) lines

/-- The boundary test of `opatch_patch_insert_patch`:
`re.match(r'^\S', line)` and not `line.strip().startswith('-')`. -/
def isNonIndentedNonList (l : Line) : Bool :=
  (match l with
   | [] => false
   | c :: _ => !isPySpace c) && !startsL ("-".toList) (pyStrip l)

/-- The `lines.insert(insert_pos, patch); insert_pos += 1` loop. -/
def insertSeq : Nat → List Line → Buffer → Buffer
  | _, [], ls => ls
  | pos, p :: ps, ls => insertSeq (pos + 1) ps (pyInsert pos p ls)

/-- `opatch_patch_insert_patch(patches, output_yml)`: find the header
(`none` = error + exit), set `opatch_end` to (first non-indented
non-list line after it) - 1, or the buffer length when there is none,
and splice the patch lines there in order. -/
def opatchPatchInsertPatch (ps : List Line) (lines : Buffer) : Option Buffer :=
  match findIdxFrom (isKeyLine keyOpatch) lines 0 with
  | none => none
  | some i =>
    let e :=
      match findIdxFrom isNonIndentedNonList lines (i + 1) with
      | some j => j - 1
      | none => lines.length
    some (insertSeq e ps lines)

/-- The `gi_patch_start` / `gi_patch_end` computation of
`gi_patches_insert_patch`: one pass that (re)sets start to idx + 1 at
every header line and stops with end = idx + 2 at the first blank line
seen while start is set.  When the header never occurs, or no blank
line follows it, Python later hits a NameError / TypeError on the
unassigned variables, so the region is `none` (a crash before any
write). -/
def giPatchesFindRegion : Buffer → Nat → Option Nat → Option (Nat × Nat)
  | [], _, _ => none
  | l :: ls, i, st =>
    let st' := if pyStrip l = keyGiPatches then some (i + 1) else st
    match st' with
    | some s =>
      if isBlankLine l then some (s, i + 2) else giPatchesFindRegion ls (i + 1) (some s)
    | none => giPatchesFindRegion ls (i + 1) none

def giPatchesRegion (lines : Buffer) : Option (Nat × Nat) :=
  giPatchesFindRegion lines 0 none

/-- The `rdbms_patch_start` / `rdbms_patch_end` computation of
`rdbms_patches_insert_patch`: same pass, but the last iteration also
sets end = idx + 1 when no blank line was found, and a missing
start/end is an explicit error + `sys.exit(1)` (`none`; again before
any write). -/
def rdbmsPatchesFindRegion : Buffer → Nat → Option Nat → Option (Nat × Nat)
  | [], _, _ => none
  | l :: ls, i, st =>
    let st' := if pyStrip l = keyRdbmsPatches then some (i + 1) else st
    match st' with
    | some s =>
      if isBlankLine l then some (s, i + 2)
      else if ls.isEmpty then some (s, i + 1)
      else rdbmsPatchesFindRegion ls (i + 1) (some s)
    | none => rdbmsPatchesFindRegion ls (i + 1) none

def rdbmsPatchesRegion (lines : Buffer) : Option (Nat × Nat) :=
  rdbmsPatchesFindRegion lines 0 none

/-- Result of the per-record `while idx < end` scan shared by
`gi_patches_insert_patch` and `rdbms_patches_insert_patch` (their
loop bodies are line-for-line identical up to the message texts):
an insertion position, one of the two error `return`s, a normal loop
exit (reachable only through the `# -` skip arm, which re-tests the
guard without the end-of-block check; it carries the flag values the
next record then starts from), or an uncaught exception. -/
inductive ScanRes where
  | inserted : Nat → ScanRes
  | errorBlank : ScanRes
  | errorEnd : ScanRes
  | fellThrough : Bool → Bool → ScanRes
  | crash : ScanRes
deriving DecidableEq

/-- The insertion stop test of the scan: `lines[idx].strip() == "" or
lines[idx].startswith('#')` (the raw line for the comment test). -/
def stopLineB (l : Line) : Bool := isBlankLine l || startsL ("#".toList) l

/-- Lines `yaml.safe_load` maps to YAML `None`: blank lines,
whole-line comments (leading whitespace allowed) and the bare null
scalars.  A line that is none of these and that `parseFlowEntry`
cannot parse makes the Python loop raise uncaught — a parser error at
`yaml.safe_load`, or a TypeError/KeyError at `line[0]['category']`
when the load is a non-None value of another shape (a bare scalar, a
block mapping, a list of non-mappings). -/
def yamlNoneLine (l : Line) : Bool :=
  isBlankLine l || startsL ("#".toList) (dropWS l)
    || pyStrip l == ("null".toList) || pyStrip l == ("Null".toList)
    || pyStrip l == ("NULL".toList) || pyStrip l == ("~".toList)

/-- The shared `while idx < end` body.  Source order per iteration:
IndexError on `lines[idx]` when idx is past the buffer; the
blank-line-with-no-match error; the `# -` skip (which `continue`s
without the end check); `yaml.safe_load(lines[idx])` — a line that
neither parses as a flow entry nor loads as YAML `None` raises
uncaught (`ScanRes.crash`), as does a parsed entry missing the
`category` key, or missing the `base` key while the category flag is
on; the category flag update, then (only when the flag is on,
short-circuit) the base lookup and flag update; the insertion test on
the updated flags; and idx += 1 followed by the end-of-block error
check.  The extra `Nat`
argument is the remaining iteration budget `endIdx - idx` (the loop
advances idx by one per iteration), which makes the recursion
structural; callers pass exactly `endIdx - idx`, and the while guard
is still re-tested every iteration. -/
def patchesScanLoop (cat base : Line) (lines : Buffer) (endIdx : Nat) :
    Nat → Bool → Bool → Nat → ScanRes
  | 0, cm, cb, _ => ScanRes.fellThrough cm cb
  | fuel + 1, cm, cb, idx =>
    if idx < endIdx then
      if lines.length ≤ idx then ScanRes.crash
      else if cb = false ∧ isBlankLine (lineD lines idx) then ScanRes.errorBlank
      else if startsL ("# -".toList) (lineD lines idx) then
        patchesScanLoop cat base lines endIdx fuel cm cb (idx + 1)
      else
        match parseFlowEntry (lineD lines idx) with
        | some kv =>
          match lookupField ("category".toList) kv with
          | none => ScanRes.crash
          | some cv =>
            let cm' := cm || (cv == cat)
            if cm' then
              match lookupField ("base".toList) kv with
              | none => ScanRes.crash
              | some bv =>
                let cb' := cb || (bv == base)
                if cb' = true ∧ stopLineB (lineD lines idx) then ScanRes.inserted idx
                else if idx + 1 = endIdx then ScanRes.errorEnd
                else patchesScanLoop cat base lines endIdx fuel cm' cb' (idx + 1)
            else
              if cb = true ∧ stopLineB (lineD lines idx) then ScanRes.inserted idx
              else if idx + 1 = endIdx then ScanRes.errorEnd
              else patchesScanLoop cat base lines endIdx fuel cm' cb (idx + 1)
        | none =>
          if yamlNoneLine (lineD lines idx) then
            if cb = true ∧ stopLineB (lineD lines idx) then ScanRes.inserted idx
            else if idx + 1 = endIdx then ScanRes.errorEnd
            else patchesScanLoop cat base lines endIdx fuel cm cb (idx + 1)
          else ScanRes.crash
    else ScanRes.fellThrough cm cb

/-- The `for patch in <patches>` loop of the two categorized
inserters: scan for the record (flags and idx thread across records,
reset only on a successful insertion); on insertion format the flow
line, splice it in and rewrite the file; on either error `return`,
leaving the file as last written; on a normal while exit rewrite the
unchanged lines and continue with the carried flags and idx = end. -/
def patchesInsertLoop (startIdx endIdx : Nat) :
    List PatchRec → Buffer → Bool → Bool → Nat → Option Buffer
  | [], lines, _, _, _ => some lines
  | p :: ps, lines, cm, cb, idx =>
    match patchesScanLoop (pyStrip p.category) (pyStrip p.base) lines endIdx (endIdx - idx) cm cb idx with
    | ScanRes.inserted pos =>
      patchesInsertLoop startIdx endIdx ps (pyInsert pos (fmtPatchFlowLine p) lines) false false startIdx
    | ScanRes.errorBlank => some lines
    | ScanRes.errorEnd => some lines
    | ScanRes.fellThrough cm' cb' => patchesInsertLoop startIdx endIdx ps lines cm' cb' endIdx
    | ScanRes.crash => none

/-- `gi_patches_insert_patch(gi_patches, output_yml)`. -/
def giPatchesInsertPatch (ps : List PatchRec) (lines : Buffer) : Option Buffer :=
  match giPatchesRegion lines with
  | none => none
  | some (s, e) => patchesInsertLoop s e ps lines false false s

/-- `rdbms_patches_insert_patch(rdbms_patches, output_yml)`. -/
def rdbmsPatchesInsertPatch (ps : List PatchRec) (lines : Buffer) : Option Buffer :=
  match rdbmsPatchesRegion lines with
  | none => none
  | some (s, e) => patchesInsertLoop s e ps lines false false s

/-- The per-record scan of `gi_patch_search_duplicates`: skip comment
lines (stripped-line test here), look for the section key, break at
the first blank line inside it, and otherwise `yaml.safe_load` the
stripped line and compare its release and patchnum fields (both
stripped) against the record's; a hit on each appends the index.
`none` models the TypeError/KeyError the Python code raises on a line
this cannot handle (before anything is written). -/
def giPatchScanAux (release patchnum : Line) : Buffer → Nat → Bool → Option (List Nat)
  | [], _, _ => some []
  | l :: ls, idx, skip =>
    if startsL ("#".toList) (pyStrip l) then giPatchScanAux release patchnum ls (idx + 1) skip
    else if skip then
      if pyStrip l = keyGiPatches then giPatchScanAux release patchnum ls (idx + 1) false
      else giPatchScanAux release patchnum ls (idx + 1) true
    else if isBlankLine l then some []
    else
      match parseFlowEntry l with
      | none => none
      | some kv =>
        match lookupField ("release".toList) kv with
        | none => none
        | some rv =>
          match lookupField ("patchnum".toList) kv with
          | none => none
          | some pv =>
            (giPatchScanAux release patchnum ls (idx + 1) skip).map (fun t =>
              (if pyStrip rv = release then [idx] else [])
                ++ (if pyStrip pv = patchnum then [idx] else []) ++ t)

/-- `gi_patch_search_duplicates(gi_patches, output_yml)`: for each
record, re-read the file, scan it, and hand the de-duplicated indices
to `patch_delete_duplicates`, which rewrites the file. -/
def giPatchSearchDuplicates : List PatchRec → Buffer → Option Buffer
  | [], lines => some lines
  | p :: ps, lines =>
    match giPatchScanAux (pyStrip p.release) (pyStrip p.patchnum) lines 0 true with
    | none => none
    | some dups =>
      match patchDeleteDuplicates dups lines with
      | DelRes.crash => none
      | DelRes.noWrite => giPatchSearchDuplicates ps lines
      | DelRes.wrote b => giPatchSearchDuplicates ps b

/-! Helper lemmas about the search and splice primitives. -/

theorem findFromAux_none {p : Line → Bool} :
    ∀ (ls : Buffer) (i : Nat), (∀ l ∈ ls, p l = false) → findFromAux p ls i = none := by
  intro ls
  induction ls with
  | nil => intro i _; rfl
  | cons l ls ih =>
    intro i h
    unfold findFromAux
    rw [h l (by simp)]
    simp only [Bool.false_eq_true, if_false]
    exact ih (i + 1) (fun x hx => h x (by simp [hx]))

theorem lineD_drop (lines : Buffer) (s k : Nat) :
    lineD (lines.drop s) k = lineD lines (s + k) := by
  induction s generalizing lines with
  | zero => simp
  | succ s ih =>
    cases lines with
    | nil => simp [lineD]
    | cons l ls => simpa [Nat.succ_add] using ih ls

theorem findFromAux_some_iff {p : Line → Bool} :
    ∀ (ls : Buffer) (i j : Nat),
      findFromAux p ls i = some j ↔
        (i ≤ j ∧ j - i < ls.length ∧ p (lineD ls (j - i)) = true ∧
         ∀ k, i ≤ k → k < j → p (lineD ls (k - i)) = false) := by
  intro ls
  induction ls with
  | nil =>
    intro i j
    simp only [findFromAux, List.length_nil]
    constructor
    · intro h; cases h
    · intro ⟨_, h2, _, _⟩; omega
  | cons l ls ih =>
    intro i j
    unfold findFromAux
    by_cases hp : p l = true
    · rw [hp]
      simp only [if_true, Option.some_inj]
      constructor
      · rintro rfl
        refine ⟨le_refl _, by simp, by simpa [lineD], fun k hk1 hk2 => absurd hk1 (by omega)⟩
      · rintro ⟨h1, _, _, h4⟩
        by_contra hne
        have hij : i < j := lt_of_le_of_ne h1 hne
        have := h4 i (le_refl _) hij
        simp [lineD] at this
        rw [this] at hp
        exact absurd hp (by simp)
    · rw [Bool.not_eq_true] at hp
      rw [hp]
      simp only [Bool.false_eq_true, if_false]
      rw [ih (i + 1) j]
      constructor
      · rintro ⟨h1, h2, h3, h4⟩
        refine ⟨by omega, by simp; omega, ?_, ?_⟩
        · have : j - i = (j - (i + 1)) + 1 := by omega
          rw [this]
          simpa [lineD] using h3
        · intro k hk1 hk2
          rcases Nat.eq_or_lt_of_le hk1 with h | h
          · subst h
            simpa [lineD]
          · have : k - i = (k - (i + 1)) + 1 := by omega
            rw [this]
            simpa [lineD] using h4 k (by omega) hk2
      · rintro ⟨h1, h2, h3, h4⟩
        have hij : i < j := by
          rcases Nat.eq_or_lt_of_le h1 with h | h
          · subst h; simp [lineD] at h3; rw [h3] at hp; cases hp
          · exact h
        refine ⟨by omega, by simp at h2; omega, ?_, ?_⟩
        · have : j - i = (j - (i + 1)) + 1 := by omega
          rw [this] at h3
          simpa [lineD] using h3
        · intro k hk1 hk2
          have hkd : k - i = (k - (i + 1)) + 1 := by omega
          have := h4 k (by omega) hk2
          rw [hkd] at this
          simpa [lineD] using this

theorem findFromAux_none_iff {p : Line → Bool} :
    ∀ (ls : Buffer) (i : Nat),
      findFromAux p ls i = none ↔
        ∀ k, i ≤ k → k < i + ls.length → p (lineD ls (k - i)) = false := by
  intro ls
  induction ls with
  | nil =>
    intro i
    constructor
    · intro _ k hk1 hk2
      simp only [List.length_nil] at hk2
      omega
    · intro _
      rfl
  | cons l ls ih =>
    intro i
    unfold findFromAux
    by_cases hp : p l = true
    · rw [hp]
      simp only [if_true]
      constructor
      · intro h
        exact absurd h (by simp)
      · intro h
        have := h i (le_refl _) (by simp)
        simp [lineD] at this
        rw [this] at hp
        cases hp
    · rw [Bool.not_eq_true] at hp
      rw [hp]
      simp only [Bool.false_eq_true, if_false]
      rw [ih (i + 1)]
      constructor
      · intro h k hk1 hk2
        rcases Nat.eq_or_lt_of_le hk1 with he | hlt
        · subst he; simpa [lineD]
        · have : k - i = (k - (i + 1)) + 1 := by omega
          rw [this]
          simpa [lineD] using h k (by omega) (by simp at hk2; omega)
      · intro h k hk1 hk2
        have : k - (i + 1) = (k - i) - 1 := by omega
        have hkd : k - i = (k - (i + 1)) + 1 := by omega
        have := h k (by omega) (by simp; omega)
        rw [hkd] at this
        simpa [lineD] using this

theorem findIdxFrom_some_iff {p : Line → Bool} (lines : Buffer) (s j : Nat) :
    findIdxFrom p lines s = some j ↔
      (s ≤ j ∧ j < lines.length ∧ p (lineD lines j) = true ∧
       ∀ k, s ≤ k → k < j → p (lineD lines k) = false) := by
  unfold findIdxFrom
  rw [findFromAux_some_iff]
  have hlen : (lines.drop s).length = lines.length - s := by simp
  constructor
  · rintro ⟨h1, h2, h3, h4⟩
    rw [lineD_drop, Nat.add_sub_cancel' h1] at h3
    refine ⟨h1, by omega, h3, ?_⟩
    intro k hk1 hk2
    have := h4 k hk1 hk2
    rwa [lineD_drop, Nat.add_sub_cancel' hk1] at this
  · rintro ⟨h1, h2, h3, h4⟩
    refine ⟨h1, by omega, ?_, ?_⟩
    · rwa [lineD_drop, Nat.add_sub_cancel' h1]
    · intro k hk1 hk2
      rw [lineD_drop, Nat.add_sub_cancel' hk1]
      exact h4 k hk1 hk2

theorem findIdxFrom_none_iff {p : Line → Bool} (lines : Buffer) (s : Nat) :
    findIdxFrom p lines s = none ↔
      ∀ k, s ≤ k → k < lines.length → p (lineD lines k) = false := by
  unfold findIdxFrom
  rw [findFromAux_none_iff]
  have hlen : (lines.drop s).length = lines.length - s := by simp
  constructor
  · intro h k hk1 hk2
    have := h k hk1 (by omega)
    rwa [lineD_drop, Nat.add_sub_cancel' hk1] at this
  · intro h k hk1 hk2
    rw [lineD_drop, Nat.add_sub_cancel' hk1]
    exact h k hk1 (by omega)

theorem pyInsert_length (pos : Nat) (b : Line) (ls : Buffer) (h : pos ≤ ls.length) :
    (pyInsert pos b ls).length = ls.length + 1 := by
  unfold pyInsert
  simp
  omega

theorem take_pyInsert (pos : Nat) (b : Line) (ls : Buffer) (h : pos ≤ ls.length) :
    (pyInsert pos b ls).take pos = ls.take pos := by
  unfold pyInsert
  rw [List.take_append_of_le_length (by simp; omega), List.take_take]
  simp

theorem drop_pyInsert (pos : Nat) (b : Line) (ls : Buffer) (h : pos ≤ ls.length) :
    (pyInsert pos b ls).drop pos = b :: ls.drop pos := by
  unfold pyInsert
  rw [List.drop_append_of_le_length (by simp; omega)]
  have : (ls.take pos).drop pos = [] := by
    apply List.drop_eq_nil_of_le
    simp
  rw [this, List.nil_append]

theorem foldl_pyInsert_eq (pos : Nat) :
    ∀ (bs : List Line) (ls : Buffer), pos ≤ ls.length →
      bs.foldl (fun acc p => pyInsert pos p acc) ls = ls.take pos ++ bs.reverse ++ ls.drop pos := by
  intro bs
  induction bs with
  | nil => intro ls _; simp
  | cons b bs ih =>
    intro ls h
    rw [List.foldl_cons]
    rw [ih (pyInsert pos b ls) (by rw [pyInsert_length pos b ls h]; omega)]
    rw [take_pyInsert pos b ls h, drop_pyInsert pos b ls h, List.reverse_cons]
    simp

theorem insertSeq_eq :
    ∀ (ps : List Line) (pos : Nat) (ls : Buffer), pos ≤ ls.length →
      insertSeq pos ps ls = ls.take pos ++ ps ++ ls.drop pos := by
  intro ps
  induction ps with
  | nil => intro pos ls _; simp [insertSeq]
  | cons p ps ih =>
    intro pos ls h
    unfold insertSeq
    rw [ih (pos + 1) (pyInsert pos p ls) (by rw [pyInsert_length pos p ls h]; omega)]
    have h1 : (pyInsert pos p ls).take (pos + 1) = ls.take pos ++ [p] := by
      unfold pyInsert
      rw [List.take_append_eq_append_take]
      have hl : (ls.take pos).length = pos := by simp; omega
      rw [hl]
      have ht : (ls.take pos).take (pos + 1) = ls.take pos :=
        List.take_of_length_le (by rw [hl]; omega)
      rw [ht]
      simp
    have h2 : (pyInsert pos p ls).drop (pos + 1) = ls.drop pos := by
      unfold pyInsert
      rw [List.drop_append_eq_append_drop]
      have hl : (ls.take pos).length = pos := by simp; omega
      rw [hl]
      have hd : (ls.take pos).drop (pos + 1) = [] := List.drop_eq_nil_of_le (by rw [hl]; omega)
      rw [hd]
      simp
    rw [h1, h2]
    simp

theorem filterIdx_cons (p : Nat → Bool) (i : Nat) (l : Line) (ls : Buffer) :
    filterIdx p i (l :: ls) =
      if p i then l :: filterIdx p (i + 1) ls else filterIdx p (i + 1) ls := rfl

theorem filterIdx_nil (p : Nat → Bool) (i : Nat) : filterIdx p i [] = [] := rfl

theorem filterIdx_append (p : Nat → Bool) :
    ∀ (a b : Buffer) (i : Nat),
      filterIdx p i (a ++ b) = filterIdx p i a ++ filterIdx p (i + a.length) b := by
  intro a
  induction a with
  | nil => intro b i; simp [filterIdx_nil]
  | cons l a ih =>
    intro b i
    rw [List.cons_append, filterIdx_cons, filterIdx_cons, ih b (i + 1)]
    have he : i + 1 + a.length = i + (l :: a).length := by simp; omega
    rw [he]
    by_cases hp : p i = true
    · rw [hp]; simp
    · rw [Bool.not_eq_true] at hp
      rw [hp]; simp

theorem filterIdx_all_true (p : Nat → Bool) :
    ∀ (l : Buffer) (i : Nat), (∀ j, i ≤ j → j < i + l.length → p j = true) →
      filterIdx p i l = l := by
  intro l
  induction l with
  | nil => intro i _; rfl
  | cons x l ih =>
    intro i h
    unfold filterIdx
    rw [h i (le_refl _) (by simp)]
    simp only [if_true]
    rw [ih (i + 1) (fun j hj1 hj2 => h j (by omega) (by simp at hj2 ⊢; omega))]

theorem filterIdx_all_false (p : Nat → Bool) :
    ∀ (l : Buffer) (i : Nat), (∀ j, i ≤ j → j < i + l.length → p j = false) →
      filterIdx p i l = [] := by
  intro l
  induction l with
  | nil => intro i _; rfl
  | cons x l ih =>
    intro i h
    unfold filterIdx
    rw [h i (le_refl _) (by simp)]
    simp only [Bool.false_eq_true, if_false]
    exact ih (i + 1) (fun j hj1 hj2 => h j (by omega) (by simp at hj2 ⊢; omega))

theorem filterIdx_congr (p q : Nat → Bool) :
    ∀ (l : Buffer) (i : Nat), (∀ j, i ≤ j → j < i + l.length → p j = q j) →
      filterIdx p i l = filterIdx q i l := by
  intro l
  induction l with
  | nil => intro i _; rfl
  | cons x l ih =>
    intro i h
    unfold filterIdx
    rw [h i (le_refl _) (by simp)]
    rw [ih (i + 1) (fun j hj1 hj2 => h j (by omega) (by simp at hj2 ⊢; omega))]

theorem insSD_mem (x : Nat) :
    ∀ (l : List Nat) (y : Nat), y ∈ insSD x l ↔ y = x ∨ y ∈ l := by
  intro l
  induction l with
  | nil => intro y; simp [insSD]
  | cons z zs ih =>
    intro y
    unfold insSD
    by_cases h1 : x > z
    · simp [h1]
    · simp only [if_neg h1]
      by_cases h2 : x = z
      · subst h2
        simp only [if_pos rfl]
        constructor
        · intro h; exact Or.inr h
        · rintro (rfl | h)
          · exact List.mem_cons_self _ _
          · exact h
      · simp only [if_neg h2, List.mem_cons, ih y]
        tauto

theorem sortDescDedup_mem (l : List Nat) (y : Nat) :
    y ∈ sortDescDedup l ↔ y ∈ l := by
  induction l with
  | nil => simp [sortDescDedup]
  | cons x xs ih =>
    show y ∈ insSD x (sortDescDedup xs) ↔ _
    rw [insSD_mem, ih]
    simp

theorem insSD_pairwise (x : Nat) :
    ∀ (l : List Nat), List.Pairwise (· > ·) l → List.Pairwise (· > ·) (insSD x l) := by
  intro l
  induction l with
  | nil => intro _; simp [insSD]
  | cons z zs ih =>
    intro h
    rcases List.pairwise_cons.mp h with ⟨hz, hzs⟩
    unfold insSD
    by_cases h1 : x > z
    · simp only [if_pos h1]
      refine List.pairwise_cons.mpr ⟨?_, h⟩
      intro y hy
      rcases List.mem_cons.mp hy with rfl | hy'
      · exact h1
      · exact lt_trans (hz y hy') h1
    · simp only [if_neg h1]
      by_cases h2 : x = z
      · simp only [if_pos h2]; exact h
      · simp only [if_neg h2]
        refine List.pairwise_cons.mpr ⟨?_, ih hzs⟩
        intro y hy
        rcases (insSD_mem x zs y).mp hy with rfl | hy'
        · omega
        · exact hz y hy'

theorem sortDescDedup_pairwise (l : List Nat) :
    List.Pairwise (· > ·) (sortDescDedup l) := by
  induction l with
  | nil => simp [sortDescDedup]
  | cons x xs ih => exact insSD_pairwise x (sortDescDedup xs) ih

theorem pairwise_gt_unique :
    ∀ (l₁ l₂ : List Nat), List.Pairwise (· > ·) l₁ → List.Pairwise (· > ·) l₂ →
      (∀ x, x ∈ l₁ ↔ x ∈ l₂) → l₁ = l₂ := by
  intro l₁
  induction l₁ with
  | nil =>
    intro l₂ _ _ hmem
    cases l₂ with
    | nil => rfl
    | cons b l₂ => exact absurd ((hmem b).mpr (List.mem_cons_self _ _)) (by simp)
  | cons a l₁ ih =>
    intro l₂ h₁ h₂ hmem
    cases l₂ with
    | nil => exact absurd ((hmem a).mp (List.mem_cons_self _ _)) (by simp)
    | cons b l₂ =>
      rcases List.pairwise_cons.mp h₁ with ⟨ha, h₁'⟩
      rcases List.pairwise_cons.mp h₂ with ⟨hb, h₂'⟩
      have hab : a = b := by
        rcases List.mem_cons.mp ((hmem a).mp (List.mem_cons_self _ _)) with h | h
        · exact h
        · rcases List.mem_cons.mp ((hmem b).mpr (List.mem_cons_self _ _)) with h' | h'
          · exact h'.symm
          · have := hb a h
            have := ha b h'
            omega
      subst hab
      have htail : ∀ x, x ∈ l₁ ↔ x ∈ l₂ := by
        intro x
        constructor
        · intro hx
          have hxa : x ≠ a := fun h => by subst h; exact absurd (ha x hx) (by omega)
          rcases List.mem_cons.mp ((hmem x).mp (List.mem_cons_of_mem a hx)) with h | h
          · exact absurd h hxa
          · exact h
        · intro hx
          have hxa : x ≠ a := fun h => by subst h; exact absurd (hb x hx) (by omega)
          rcases List.mem_cons.mp ((hmem x).mpr (List.mem_cons_of_mem a hx)) with h | h
          · exact absurd h hxa
          · exact h
      rw [ih l₂ h₁' h₂' htail]

theorem sortDescDedup_filter (l : List Nat) (q : Nat → Bool) :
    sortDescDedup (l.filter q) = (sortDescDedup l).filter q := by
  apply pairwise_gt_unique
  · exact sortDescDedup_pairwise _
  · exact (sortDescDedup_pairwise l).filter q
  · intro x
    rw [sortDescDedup_mem, List.mem_filter, List.mem_filter, sortDescDedup_mem]

/-- Descending lexicographic order on index pairs (what Python's tuple
`sorted(..., reverse=True)` produces). -/
def pairLexGe (a b : Nat × Nat) : Prop := b.1 < a.1 ∨ (a.1 = b.1 ∧ b.2 ≤ a.2)

theorem insPairDesc_perm (x : Nat × Nat) :
    ∀ (l : List (Nat × Nat)), List.Perm (insPairDesc x l) (x :: l) := by
  intro l
  induction l with
  | nil => simp [insPairDesc]
  | cons y ys ih =>
    unfold insPairDesc
    by_cases h : y.1 < x.1 ∨ (x.1 = y.1 ∧ y.2 ≤ x.2)
    · simp only [if_pos h]
      exact List.Perm.refl _
    · simp only [if_neg h]
      exact (List.Perm.cons y ih).trans (List.Perm.swap x y ys)

theorem sortPairsDesc_perm (l : List (Nat × Nat)) :
    List.Perm (sortPairsDesc l) l := by
  induction l with
  | nil => simp [sortPairsDesc]
  | cons x xs ih =>
    exact (insPairDesc_perm x (sortPairsDesc xs)).trans (List.Perm.cons x ih)

theorem insPairDesc_pairwise (x : Nat × Nat) :
    ∀ (l : List (Nat × Nat)), List.Pairwise pairLexGe l →
      List.Pairwise pairLexGe (insPairDesc x l) := by
  intro l
  induction l with
  | nil => intro _; simp [insPairDesc, pairLexGe]
  | cons y ys ih =>
    intro h
    rcases List.pairwise_cons.mp h with ⟨hy, hys⟩
    unfold insPairDesc
    by_cases h1 : y.1 < x.1 ∨ (x.1 = y.1 ∧ y.2 ≤ x.2)
    · simp only [if_pos h1]
      refine List.pairwise_cons.mpr ⟨?_, h⟩
      intro z hz
      rcases List.mem_cons.mp hz with rfl | hz'
      · exact h1
      · have := hy z hz'
        unfold pairLexGe at this ⊢
        omega
    · simp only [if_neg h1]
      refine List.pairwise_cons.mpr ⟨?_, ih hys⟩
      intro z hz
      rcases List.mem_cons.mp ((insPairDesc_perm x ys).mem_iff.mp hz) with rfl | hz'
      · unfold pairLexGe
        omega
      · exact hy z hz'

theorem sortPairsDesc_pairwise (l : List (Nat × Nat)) :
    List.Pairwise pairLexGe (sortPairsDesc l) := by
  induction l with
  | nil => simp [sortPairsDesc]
  | cons x xs ih => exact insPairDesc_pairwise x (sortPairsDesc xs) ih

theorem coveredBy_cons (r : Nat × Nat) (rs : List (Nat × Nat)) (i : Nat) :
    coveredBy (r :: rs) i = ((r.1 ≤ i && i < r.2) || coveredBy rs i) := by
  simp [coveredBy]

theorem chain_ranges_bound :
    ∀ (x : Nat × Nat) (rs : List (Nat × Nat)),
      List.Chain' (fun a b => b.2 ≤ a.1) (x :: rs) → (∀ r ∈ rs, r.1 ≤ r.2) →
      ∀ r ∈ rs, r.2 ≤ x.1 := by
  intro x rs
  induction rs generalizing x with
  | nil => intro _ _ r hr; cases hr
  | cons y ys ih =>
    intro hch hne r hr
    rcases List.chain'_cons.mp hch with ⟨hxy, hch'⟩
    rcases List.mem_cons.mp hr with rfl | hr'
    · exact hxy
    · have h1 := ih y hch' (fun r' hr' => hne r' (by simp [hr'])) r hr'
      have h2 := hne y (by simp)
      omega

theorem applyRanges_eq_filterIdx :
    ∀ (rs : List (Nat × Nat)) (lines : Buffer),
      List.Chain' (fun a b => b.2 ≤ a.1) rs →
      (∀ r ∈ rs, r.1 < r.2 ∧ r.2 ≤ lines.length) →
      applyRanges rs lines = filterIdx (fun i => !(coveredBy rs i)) 0 lines := by
  intro rs
  induction rs with
  | nil =>
    intro lines _ _
    unfold applyRanges
    rw [List.foldl_nil]
    rw [filterIdx_all_true]
    intro j _ _
    simp [coveredBy]
  | cons r rs ih =>
    intro lines hch hb
    obtain ⟨s, e⟩ := r
    rcases hb (s, e) (by simp) with ⟨hse, hel⟩
    have hslen : s < lines.length := by omega
    have happ : applyRanges ((s, e) :: rs) lines = applyRanges rs (pyDelSlice s e lines) := rfl
    have hdel : pyDelSlice s e lines = lines.take s ++ lines.drop e := by
      unfold pyDelSlice
      rw [if_neg (by omega)]
    have hbound : ∀ r' ∈ rs, r'.2 ≤ s := by
      have := chain_ranges_bound (s, e) rs hch (fun r' hr' => (hb r' (by simp [hr'])).1.le)
      simpa using this
    have hchtail : List.Chain' (fun a b => b.2 ≤ a.1) rs := (List.chain'_cons'.mp hch).2
    have hA : (lines.take s).length = s := by simp; omega
    have hAB : (lines.take s ++ lines.drop e).length = s + (lines.length - e) := by
      simp; omega
    rw [happ, hdel]
    rw [ih (lines.take s ++ lines.drop e) hchtail
        (fun r' hr' => ⟨(hb r' (by simp [hr'])).1, by
          have := hbound r' hr'
          rw [hAB]
          omega⟩)]
    rw [filterIdx_append, hA, Nat.zero_add]
    have hdropB : filterIdx (fun i => !(coveredBy rs i)) s (lines.drop e) = lines.drop e := by
      apply filterIdx_all_true
      intro j hj1 _
      have : coveredBy rs j = false := by
        unfold coveredBy
        rw [List.any_eq_false]
        intro r' hr'
        have := hbound r' hr'
        simp only [Bool.and_eq_true, decide_eq_true_eq, not_and]
        intro _
        omega
      rw [this]
      rfl
    rw [hdropB]
    -- now rewrite the right-hand side over lines = take s ++ (take (e-s) of drop s) ++ drop e
    conv_rhs => rw [← List.take_append_drop s lines]
    rw [filterIdx_append, hA, Nat.zero_add]
    have hsplitC : lines.drop s = (lines.drop s).take (e - s) ++ lines.drop e := by
      have h1 : List.drop (e - s) (List.drop s lines) = List.drop e lines := by
        rw [List.drop_drop]
        congr 1
        omega
      rw [← h1, List.take_append_drop]
    have hC1 : ((lines.drop s).take (e - s)).length = e - s := by simp; omega
    rw [hsplitC, filterIdx_append, hC1]
    have hmid : filterIdx (fun i => !(coveredBy ((s, e) :: rs) i)) s ((lines.drop s).take (e - s)) = [] := by
      apply filterIdx_all_false
      intro j hj1 hj2
      rw [hC1] at hj2
      rw [coveredBy_cons]
      have : (s ≤ j && j < e) = true := by
        simp only [Bool.and_eq_true, decide_eq_true_eq]
        omega
      simp only [this, Bool.true_or, Bool.not_true]
    have hend : filterIdx (fun i => !(coveredBy ((s, e) :: rs) i)) (s + (e - s)) (lines.drop e) = lines.drop e := by
      apply filterIdx_all_true
      intro j hj1 _
      rw [coveredBy_cons]
      have h1 : (s ≤ j && j < e) = false := by
        simp only [Bool.and_eq_false_iff, decide_eq_false_iff_not]
        right
        omega
      have h2 : coveredBy rs j = false := by
        unfold coveredBy
        rw [List.any_eq_false]
        intro r' hr'
        have := hbound r' hr'
        simp only [Bool.and_eq_true, decide_eq_true_eq, not_and]
        intro _
        omega
      rw [h1, h2]
      rfl
    rw [hmid, hend]
    have hfront : filterIdx (fun i => !(coveredBy rs i)) 0 (lines.take s)
        = filterIdx (fun i => !(coveredBy ((s, e) :: rs) i)) 0 (lines.take s) := by
      apply filterIdx_congr
      intro j hj1 hj2
      rw [hA] at hj2
      rw [coveredBy_cons]
      have : (s ≤ j && j < e) = false := by
        simp only [Bool.and_eq_false_iff, decide_eq_false_iff_not]
        left
        omega
      rw [this]
      simp
    rw [hfront]
    simp

theorem fsAux_some_iff (marker : Line → Bool) (lines : Buffer) (m : Nat) :
    ∀ (fuel k s : Nat),
      fsAux marker lines m k fuel = some s ↔
        (s + k ≤ m ∧ m < s + k + fuel ∧ marker (lineD lines s) = true ∧
         ∀ j, s < j → j + k ≤ m → marker (lineD lines j) = false) := by
  intro fuel
  induction fuel with
  | zero =>
    intro k s
    simp only [fsAux]
    constructor
    · intro h; cases h
    · intro ⟨h1, h2, _, _⟩; omega
  | succ fuel ih =>
    intro k s
    unfold fsAux
    by_cases hk : k > m
    · rw [if_pos hk]
      constructor
      · intro h; cases h
      · intro ⟨h1, _, _, _⟩; omega
    · rw [if_neg hk]
      push_neg at hk
      by_cases hm : marker (lineD lines (m - k)) = true
      · rw [if_pos hm]
        simp only [Option.some_inj]
        constructor
        · rintro rfl
          refine ⟨by omega, by omega, hm, ?_⟩
          intro j hj1 hj2
          omega
        · rintro ⟨h1, h2, h3, h4⟩
          by_contra hne
          have hlt : s < m - k ∨ m - k < s := by omega
          rcases hlt with hlt | hlt
          · have := h4 (m - k) hlt (by omega)
            rw [this] at hm
            cases hm
          · omega
      · rw [if_neg hm]
        rw [Bool.not_eq_true] at hm
        rw [ih (k + 1) s]
        constructor
        · rintro ⟨h1, h2, h3, h4⟩
          refine ⟨by omega, by omega, h3, ?_⟩
          intro j hj1 hj2
          by_cases hje : j + k = m
          · have : j = m - k := by omega
            rw [this]
            exact hm
          · exact h4 j hj1 (by omega)
        · rintro ⟨h1, h2, h3, h4⟩
          have hs : s + k ≠ m := by
            intro he
            have : s = m - k := by omega
            rw [this] at h3
            rw [h3] at hm
            cases hm
          refine ⟨by omega, by omega, h3, fun j hj1 hj2 => h4 j hj1 (by omega)⟩

theorem fsAux_none_iff (marker : Line → Bool) (lines : Buffer) (m : Nat) :
    ∀ (fuel k : Nat),
      fsAux marker lines m k fuel = none ↔
        ∀ j, j + k ≤ m → m < j + k + fuel → marker (lineD lines j) = false := by
  intro fuel
  induction fuel with
  | zero =>
    intro k
    simp only [fsAux]
    constructor
    · intro _ j hj1 hj2; omega
    · intro _; trivial
  | succ fuel ih =>
    intro k
    unfold fsAux
    by_cases hk : k > m
    · rw [if_pos hk]
      constructor
      · intro _ j hj1 _; omega
      · intro _; rfl
    · rw [if_neg hk]
      push_neg at hk
      by_cases hm : marker (lineD lines (m - k)) = true
      · rw [if_pos hm]
        constructor
        · intro h; cases h
        · intro h
          have := h (m - k) (by omega) (by omega)
          rw [this] at hm
          cases hm
      · rw [if_neg hm]
        rw [Bool.not_eq_true] at hm
        rw [ih (k + 1)]
        constructor
        · intro h j hj1 hj2
          by_cases hje : j + k = m
          · have : j = m - k := by omega
            rw [this]
            exact hm
          · exact h j (by omega) (by omega)
        · intro h j hj1 hj2
          exact h j (by omega) (by omega)

theorem feAux_some_iff (stop : Line → Bool) (lines : Buffer) (m : Nat) :
    ∀ (fuel k e : Nat),
      feAux stop lines m k fuel = some e ↔
        (m + k ≤ e ∧ e < m + k + fuel ∧ e < lines.length ∧ stop (lineD lines e) = true ∧
         ∀ j, m + k ≤ j → j < e → stop (lineD lines j) = false) := by
  intro fuel
  induction fuel with
  | zero =>
    intro k e
    simp only [feAux]
    constructor
    · intro h; cases h
    · intro ⟨h1, h2, _, _, _⟩; omega
  | succ fuel ih =>
    intro k e
    unfold feAux
    by_cases hlen : lines.length ≤ m + k
    · rw [if_pos hlen]
      constructor
      · intro h; cases h
      · intro ⟨h1, _, h3, _, _⟩; omega
    · rw [if_neg hlen]
      push_neg at hlen
      by_cases hs : stop (lineD lines (m + k)) = true
      · rw [if_pos hs]
        simp only [Option.some_inj]
        constructor
        · rintro rfl
          exact ⟨le_refl _, by omega, hlen, hs, fun j hj1 hj2 => by omega⟩
        · rintro ⟨h1, h2, h3, h4, h5⟩
          by_contra hne
          have : m + k < e := by omega
          have := h5 (m + k) (le_refl _) this
          rw [this] at hs
          cases hs
      · rw [if_neg hs]
        rw [Bool.not_eq_true] at hs
        rw [ih (k + 1) e]
        constructor
        · rintro ⟨h1, h2, h3, h4, h5⟩
          refine ⟨by omega, by omega, h3, h4, ?_⟩
          intro j hj1 hj2
          by_cases hje : j = m + k
          · rw [hje]; exact hs
          · exact h5 j (by omega) hj2
        · rintro ⟨h1, h2, h3, h4, h5⟩
          have he : e ≠ m + k := by
            intro hh
            rw [hh] at h4
            rw [h4] at hs
            cases hs
          refine ⟨by omega, by omega, h3, h4, fun j hj1 hj2 => h5 j (by omega) hj2⟩

theorem feAux_none_iff (stop : Line → Bool) (lines : Buffer) (m : Nat) :
    ∀ (fuel k : Nat),
      feAux stop lines m k fuel = none ↔
        ∀ j, m + k ≤ j → j < m + k + fuel → j < lines.length → stop (lineD lines j) = false := by
  intro fuel
  induction fuel with
  | zero =>
    intro k
    simp only [feAux]
    constructor
    · intro _ j hj1 hj2 _; omega
    · intro _; trivial
  | succ fuel ih =>
    intro k
    unfold feAux
    by_cases hlen : lines.length ≤ m + k
    · rw [if_pos hlen]
      constructor
      · intro _ j hj1 _ hj3; omega
      · intro _; rfl
    · rw [if_neg hlen]
      push_neg at hlen
      by_cases hs : stop (lineD lines (m + k)) = true
      · rw [if_pos hs]
        constructor
        · intro h; cases h
        · intro h
          have := h (m + k) (le_refl _) (by omega) hlen
          rw [this] at hs
          cases hs
      · rw [if_neg hs]
        rw [Bool.not_eq_true] at hs
        rw [ih (k + 1)]
        constructor
        · intro h j hj1 hj2 hj3
          by_cases hje : j = m + k
          · rw [hje]; exact hs
          · exact h j (by omega) (by omega) hj3
        · intro h j hj1 hj2 hj3
          exact h j (by omega) (by omega) hj3

theorem filterMap_filter_of_none {f : Nat → Option (Nat × Nat)} {q : Nat → Bool} :
    ∀ (l : List Nat), (∀ x ∈ l, q x = false → f x = none) →
      (l.filter q).filterMap f = l.filterMap f := by
  intro l
  induction l with
  | nil => intro _; rfl
  | cons x xs ih =>
    intro h
    by_cases hq : q x = true
    · rw [List.filter_cons_of_pos hq]
      rw [List.filterMap_cons, List.filterMap_cons]
      cases f x with
      | none => exact ih (fun y hy => h y (by simp [hy]))
      | some r => rw [ih (fun y hy => h y (by simp [hy]))]
    · rw [Bool.not_eq_true] at hq
      rw [List.filter_cons_of_neg (by simp [hq])]
      rw [List.filterMap_cons, h x (by simp) hq]
      exact ih (fun y hy => h y (by simp [hy]))

/-- Claim C10: when the duplicate scan finds no matching line, the
search operation leaves the file unchanged and never opens it for
writing: each delete helper returns before its write when the
match-index collection is empty, so detection alone has no file side
effect. -/
theorem c10_empty_scan_no_write (rs : List SWRec) (mls : List Nat) (lines : Buffer)
    (hscan : giSoftwareScanAll rs lines = []) (hm : mls = []) :
    giSoftwareSearchDuplicates rs lines = (DelRes.noWrite, 0)
    ∧ softwareDeleteDuplicates mls lines = (DelRes.noWrite, 0)
    ∧ patchDeleteDuplicates mls lines = DelRes.noWrite
    ∧ giInterimDeleteDuplicates mls lines = (DelRes.noWrite, 0) := by
  subst hm
  refine ⟨?_, rfl, rfl, rfl⟩
  unfold giSoftwareSearchDuplicates
  rw [hscan]
  rfl

/-- Witness for C10 at a concrete record and file with no duplicates. -/
theorem c10_empty_scan_no_write_witness :
    giSoftwareScanAll [⟨"zz".toList, "9".toList, []⟩] [("x: 1".toList)] = []
    ∧ (giSoftwareSearchDuplicates [⟨"zz".toList, "9".toList, []⟩] [("x: 1".toList)]
         = (DelRes.noWrite, 0)
       ∧ softwareDeleteDuplicates [] [("x: 1".toList)] = (DelRes.noWrite, 0)
       ∧ patchDeleteDuplicates [] [("x: 1".toList)] = DelRes.noWrite
       ∧ giInterimDeleteDuplicates [] [("x: 1".toList)] = (DelRes.noWrite, 0)) :=
  ⟨by decide, c10_empty_scan_no_write _ _ _ (by decide) rfl⟩

/-- Claim C2, counterexample: with the `gi_interim_patches:` key absent
from the file, `gi_interim_insert_patch` does not report an error or
exit; it runs to completion (the model's return value is the buffer it
rewrites — note the function's total type: every path writes) and the
file contents are rewritten unchanged, with the success message
printed.  The claimed fatal non-zero exit does not happen. -/
theorem c2_counterexample :
    giInterimInsertPatch [("  - c".toList)] [("a: 1".toList)] = [("a: 1".toList)] := by decide

/-- Claim C2, amended: the `gi_software` (for/else) inserter is fatal
when its key is missing — error, `sys.exit(1)`, no write — but the
`gi_interim` inserter has no missing-key error path: it exits
normally, rewriting the file with unchanged contents. -/
theorem c2_amended (ps qs : List Line) (lines : Buffer)
    (h1 : ∀ l ∈ lines, pyStrip l ≠ keyGiSoftware)
    (h2 : ∀ l ∈ lines, pyStrip l ≠ keyGiInterim) :
    giSoftwareInsertPatch ps lines = none
    ∧ giInterimInsertPatch qs lines = lines := by
  constructor
  · unfold giSoftwareInsertPatch findIdxFrom
    rw [List.drop_zero,
      findFromAux_none lines 0 (fun l hl => by
        simp only [isKeyLine, beq_eq_false_iff_ne, ne_eq]
        exact h1 l hl)]
  · unfold giInterimInsertPatch findIdxFrom
    rw [List.drop_zero,
      findFromAux_none lines 0 (fun l hl => by
        simp only [isKeyLine, beq_eq_false_iff_ne, ne_eq]
        exact h2 l hl)]

/-- Witness for C2's amended statement at a concrete one-line file
missing both keys. -/
theorem c2_amended_witness :
    ((∀ l ∈ [("a: 1".toList)], pyStrip l ≠ keyGiSoftware)
      ∧ (∀ l ∈ [("a: 1".toList)], pyStrip l ≠ keyGiInterim))
    ∧ (giSoftwareInsertPatch [("b".toList)] [("a: 1".toList)] = none
       ∧ giInterimInsertPatch [("b".toList)] [("a: 1".toList)] = [("a: 1".toList)]) :=
  ⟨⟨by decide, by decide⟩, c2_amended _ _ _ (by decide) (by decide)⟩

/-- Claim C7: when the backward window of `software_delete_duplicates`
holds no entry marker for some match index, an error message is
printed (the error count is positive) and no range is recorded for
that index — the ranges are those of the remaining indices — yet the
run is not aborted: the file is still rewritten with the other
deletions applied. -/
theorem c7_no_marker_skips_index (mls : List Nat) (lines : Buffer) (m : Nat)
    (hm : m ∈ mls) (hlen : ∀ x ∈ mls, x < lines.length)
    (hno : ∀ j, j ≤ m → m < j + 10 → markerNameL (lineD lines j) = false) :
    (softwareDeleteDuplicates mls lines).1
      = DelRes.wrote (applyRanges (sortPairsDesc (softwareRanges mls lines)) lines)
    ∧ 1 ≤ (softwareDeleteDuplicates mls lines).2
    ∧ softwareRanges mls lines = softwareRanges (mls.filter (fun x => x ≠ m)) lines := by
  have hstart : findStartSW lines m = none := by
    unfold findStartSW
    rw [fsAux_none_iff]
    intro j hj1 hj2
    exact hno j (by omega) (by omega)
  have hempty : mls.isEmpty = false := by
    cases mls with
    | nil => cases hm
    | cons a l => rfl
  have hany : (mls.any (fun x => lines.length ≤ x)) = false := by
    rw [List.any_eq_false]
    intro x hx
    simp only [decide_eq_true_eq, not_le]
    exact hlen x hx
  refine ⟨?_, ?_, ?_⟩
  · unfold softwareDeleteDuplicates
    rw [hempty, hany]
    simp
  · unfold softwareDeleteDuplicates
    rw [hempty, hany]
    simp only [Bool.false_eq_true, if_false]
    unfold softwareStartErrs
    have : 0 < (sortDescDedup mls).countP (fun x => (findStartSW lines x).isNone) := by
      rw [List.countP_pos_iff]
      exact ⟨m, (sortDescDedup_mem mls m).mpr hm, by rw [hstart]; rfl⟩
    omega
  · unfold softwareRanges
    rw [sortDescDedup_filter]
    rw [filterMap_filter_of_none]
    intro x _ hx
    have : x = m := by
      by_contra hne
      simp [hne] at hx
    rw [this, hstart]
    rfl

/-- Witness for C7: match index 1 sits in a buffer whose first ten
lines carry no `  - name:` marker, while match index 13 has one; the
run still rewrites the file, deleting only index 13's block. -/
theorem c7_no_marker_skips_index_witness :
    ((1 : Nat) ∈ [1, 13]
      ∧ (∀ x ∈ [1, 13], x < (List.replicate 12 ("z".toList) ++ [("  - name: q".toList), ("w".toList)]).length)
      ∧ (∀ j, j ≤ 1 → 1 < j + 10 →
          markerNameL (lineD (List.replicate 12 ("z".toList) ++ [("  - name: q".toList), ("w".toList)]) j) = false))
    ∧ ((softwareDeleteDuplicates [1, 13] (List.replicate 12 ("z".toList) ++ [("  - name: q".toList), ("w".toList)])).1
        = DelRes.wrote (applyRanges (sortPairsDesc (softwareRanges [1, 13] (List.replicate 12 ("z".toList) ++ [("  - name: q".toList), ("w".toList)]))) (List.replicate 12 ("z".toList) ++ [("  - name: q".toList), ("w".toList)]))
      ∧ 1 ≤ (softwareDeleteDuplicates [1, 13] (List.replicate 12 ("z".toList) ++ [("  - name: q".toList), ("w".toList)])).2
      ∧ softwareRanges [1, 13] (List.replicate 12 ("z".toList) ++ [("  - name: q".toList), ("w".toList)])
          = softwareRanges ([1, 13].filter (fun x => x ≠ 1)) (List.replicate 12 ("z".toList) ++ [("  - name: q".toList), ("w".toList)])) :=
  ⟨⟨by decide, by decide, by decide⟩,
    c7_no_marker_skips_index _ _ _ (by decide) (by decide) (by decide)⟩

/-- Two half-open index ranges do not overlap. -/
def rangesDisjoint (a b : Nat × Nat) : Prop := a.2 ≤ b.1 ∨ b.2 ≤ a.1

/-- The four-line buffer on which two match indices inside one entry
block make the range deletions overlap. -/
def c3Lines : Buffer :=
  [("  - name: a".toList), ("    version: 1".toList),
   ("  - name: b".toList), ("    version: 2".toList)]

/-- Claim C3, counterexample: match indices 0 and 1 both resolve to the
block range [0, 2); the deletion loop then runs `del lines[0:2]` twice,
leaving an empty buffer instead of the two lines that removing exactly
the computed ranges would leave — so for this input the remover does
not delete exactly the computed ranges. -/
theorem c3_counterexample :
    softwareRanges [0, 1] c3Lines = [(0, 2), (0, 2)]
    ∧ (softwareDeleteDuplicates [0, 1] c3Lines).1 = DelRes.wrote []
    ∧ filterIdx (fun i => !(coveredBy (softwareRanges [0, 1] c3Lines) i)) 0 c3Lines
        = [("  - name: b".toList), ("    version: 2".toList)]
    ∧ ([] : Buffer) ≠ [("  - name: b".toList), ("    version: 2".toList)] := by decide

theorem coveredBy_perm {l1 l2 : List (Nat × Nat)} (h : List.Perm l1 l2) (i : Nat) :
    coveredBy l1 i = coveredBy l2 i := by
  unfold coveredBy
  cases hc : l2.any (fun r => r.1 ≤ i && i < r.2) with
  | true =>
    rw [List.any_eq_true] at hc ⊢
    rcases hc with ⟨r, hr, hp⟩
    exact ⟨r, h.mem_iff.mpr hr, hp⟩
  | false =>
    rw [List.any_eq_false] at hc ⊢
    intro r hr
    exact hc r (h.mem_iff.mp hr)

/-- Characterization of the 10-line backward start scan shared by the
two block removers: the nearest marker line at or before the match
index within the window. -/
theorem findStart_char (marker : Line → Bool) (lines : Buffer) (m s : Nat) :
    fsAux marker lines m 0 10 = some s ↔
      (s ≤ m ∧ m < s + 10 ∧ marker (lineD lines s) = true ∧
       ∀ j, s < j → j ≤ m → marker (lineD lines j) = false) := by
  rw [fsAux_some_iff]
  constructor
  · rintro ⟨h1, h2, h3, h4⟩
    exact ⟨by omega, by omega, h3, fun j hj1 hj2 => h4 j hj1 (by omega)⟩
  · rintro ⟨h1, h2, h3, h4⟩
    exact ⟨by omega, by omega, h3, fun j hj1 hj2 => h4 j hj1 (by omega)⟩

/-- Characterization of the forward end scan shared by the two block
removers: the next stop line within the 19-line window, else the end
of the buffer. -/
theorem findEnd_char (stop : Line → Bool) (lines : Buffer) (m : Nat) :
    (m < (feAux stop lines m 1 19).getD lines.length
     ∧ (feAux stop lines m 1 19).getD lines.length < m + 20
     ∧ (feAux stop lines m 1 19).getD lines.length < lines.length
     ∧ stop (lineD lines ((feAux stop lines m 1 19).getD lines.length)) = true
     ∧ ∀ j, m < j → j < (feAux stop lines m 1 19).getD lines.length →
         stop (lineD lines j) = false)
    ∨ ((feAux stop lines m 1 19).getD lines.length = lines.length
       ∧ ∀ j, m < j → j < m + 20 → j < lines.length → stop (lineD lines j) = false) := by
  cases hfe : feAux stop lines m 1 19 with
  | some e =>
    left
    rcases (feAux_some_iff stop lines m 19 1 e).mp hfe with ⟨h1, h2, h3, h4, h5⟩
    simp only [Option.getD_some]
    exact ⟨by omega, by omega, h3, h4, fun j hj1 hj2 => h5 j (by omega) hj2⟩
  | none =>
    right
    have h := (feAux_none_iff stop lines m 19 1).mp hfe
    exact ⟨rfl, fun j hj1 hj2 hj3 => h j (by omega) (by omega) hj3⟩

/-- Every recorded range of the two block removers is nonempty and
ends within the buffer. -/
theorem delRanges_facts (marker stop : Line → Bool) (mls : List Nat) (lines : Buffer)
    (hlen : ∀ x ∈ mls, x < lines.length) :
    ∀ r ∈ (sortDescDedup mls).filterMap
        (fun m => (fsAux marker lines m 0 10).map
          (fun s => (s, (feAux stop lines m 1 19).getD lines.length))),
      r.1 < r.2 ∧ r.2 ≤ lines.length := by
  intro r hr
  rcases List.mem_filterMap.mp hr with ⟨m, hmem, hf⟩
  have hmlen : m < lines.length := hlen m ((sortDescDedup_mem mls m).mp hmem)
  cases hst : fsAux marker lines m 0 10 with
  | none => rw [hst] at hf; cases hf
  | some s =>
    rw [hst] at hf
    simp only [Option.map_some', Option.some_inj] at hf
    rcases (findStart_char marker lines m s).mp hst with ⟨hs1, _, _, _⟩
    subst hf
    rcases findEnd_char stop lines m with ⟨h1, h2, h3, _, _⟩ | ⟨h1, _⟩
    · exact ⟨by show s < (feAux stop lines m 1 19).getD lines.length; omega,
        by show (feAux stop lines m 1 19).getD lines.length ≤ lines.length; omega⟩
    · exact ⟨by show s < (feAux stop lines m 1 19).getD lines.length; omega,
        by show (feAux stop lines m 1 19).getD lines.length ≤ lines.length; omega⟩

/-- Under pairwise disjointness, the descending slice deletions remove
exactly the union of the recorded ranges. -/
theorem applyRanges_sorted_filter (ranges : List (Nat × Nat)) (lines : Buffer)
    (hdisj : List.Pairwise rangesDisjoint ranges)
    (hfacts : ∀ r ∈ ranges, r.1 < r.2 ∧ r.2 ≤ lines.length) :
    applyRanges (sortPairsDesc ranges) lines
      = filterIdx (fun i => !(coveredBy ranges i)) 0 lines := by
  have hperm := sortPairsDesc_perm ranges
  have hsorted := sortPairsDesc_pairwise ranges
  have hsymm : Symmetric rangesDisjoint := by
    intro a b h
    unfold rangesDisjoint at h ⊢
    omega
  have hdisjS : List.Pairwise rangesDisjoint (sortPairsDesc ranges) := by
    rw [List.Perm.pairwise_iff (fun {a b} h => hsymm h) hperm]
    exact hdisj
  have hfactsS : ∀ r ∈ sortPairsDesc ranges, r.1 < r.2 ∧ r.2 ≤ lines.length := by
    intro r hr
    exact hfacts r (hperm.mem_iff.mp hr)
  have hchain : List.Chain' (fun a b => b.2 ≤ a.1) (sortPairsDesc ranges) := by
    apply List.Pairwise.chain'
    have hand := hsorted.and hdisjS
    apply hand.imp_of_mem
    intro a b ha hb hab
    rcases hfactsS a ha with ⟨ha1, _⟩
    rcases hfactsS b hb with ⟨hb1, _⟩
    rcases hab with ⟨hlex, hdis⟩
    unfold pairLexGe at hlex
    unfold rangesDisjoint at hdis
    omega
  rw [applyRanges_eq_filterIdx _ _ hchain hfactsS]
  apply filterIdx_congr
  intro j _ _
  rw [coveredBy_perm hperm j]

/-- Claim C3, amended: with in-range match indices whose computed
ranges are pairwise non-overlapping, each remover (processing the
deduplicated indices in descending order) deletes exactly those
[start, end) ranges: the surviving lines are exactly those whose index
no computed range covers.  For both removers the block start taken for
an index is the nearest entry-marker line at or before it within the
10-line backward window; the block end for `software_delete_duplicates`
is the next `  - name:` line within the 19-line forward window, and
for `gi_interim_delete_duplicates` the next `  - category:` line OR
blank line within that window — else, in both, the end of the
buffer. -/
theorem c3_amended (mls : List Nat) (lines : Buffer) (nls : List Nat) (lines2 : Buffer)
    (hne : mls ≠ [])
    (hlen : ∀ x ∈ mls, x < lines.length)
    (hdisj : List.Pairwise rangesDisjoint (softwareRanges mls lines))
    (hne2 : nls ≠ [])
    (hlen2 : ∀ x ∈ nls, x < lines2.length)
    (hdisj2 : List.Pairwise rangesDisjoint (interimRanges nls lines2)) :
    (softwareDeleteDuplicates mls lines).1
      = DelRes.wrote (filterIdx (fun i => !(coveredBy (softwareRanges mls lines) i)) 0 lines)
    ∧ (giInterimDeleteDuplicates nls lines2).1
      = DelRes.wrote (filterIdx (fun i => !(coveredBy (interimRanges nls lines2) i)) 0 lines2)
    ∧ (∀ m s, findStartSW lines m = some s ↔
        (s ≤ m ∧ m < s + 10 ∧ markerNameL (lineD lines s) = true ∧
         ∀ j, s < j → j ≤ m → markerNameL (lineD lines j) = false))
    ∧ (∀ m,
        (m < findEndSW lines m ∧ findEndSW lines m < m + 20 ∧
         findEndSW lines m < lines.length ∧
         markerNameL (lineD lines (findEndSW lines m)) = true ∧
         ∀ j, m < j → j < findEndSW lines m → markerNameL (lineD lines j) = false)
        ∨ (findEndSW lines m = lines.length ∧
           ∀ j, m < j → j < m + 20 → j < lines.length →
             markerNameL (lineD lines j) = false))
    ∧ (∀ m s, findStartInterim lines2 m = some s ↔
        (s ≤ m ∧ m < s + 10 ∧ markerCategoryL (lineD lines2 s) = true ∧
         ∀ j, s < j → j ≤ m → markerCategoryL (lineD lines2 j) = false))
    ∧ (∀ m,
        (m < findEndInterim lines2 m ∧ findEndInterim lines2 m < m + 20 ∧
         findEndInterim lines2 m < lines2.length ∧
         (markerCategoryL (lineD lines2 (findEndInterim lines2 m))
            || isBlankLine (lineD lines2 (findEndInterim lines2 m))) = true ∧
         ∀ j, m < j → j < findEndInterim lines2 m →
           (markerCategoryL (lineD lines2 j) || isBlankLine (lineD lines2 j)) = false)
        ∨ (findEndInterim lines2 m = lines2.length ∧
           ∀ j, m < j → j < m + 20 → j < lines2.length →
             (markerCategoryL (lineD lines2 j) || isBlankLine (lineD lines2 j)) = false)) := by
  have hfacts1 : ∀ r ∈ softwareRanges mls lines, r.1 < r.2 ∧ r.2 ≤ lines.length :=
    delRanges_facts markerNameL markerNameL mls lines hlen
  have hfacts2 : ∀ r ∈ interimRanges nls lines2, r.1 < r.2 ∧ r.2 ≤ lines2.length :=
    delRanges_facts markerCategoryL (fun l => markerCategoryL l || isBlankLine l) nls lines2 hlen2
  have hmain1 : (softwareDeleteDuplicates mls lines).1
      = DelRes.wrote (filterIdx (fun i => !(coveredBy (softwareRanges mls lines) i)) 0 lines) := by
    have hempty : mls.isEmpty = false := by
      cases mls with
      | nil => exact absurd rfl hne
      | cons a l => rfl
    have hany : (mls.any (fun x => lines.length ≤ x)) = false := by
      rw [List.any_eq_false]
      intro x hx
      simp only [decide_eq_true_eq, not_le]
      exact hlen x hx
    unfold softwareDeleteDuplicates
    rw [hempty, hany]
    simp only [Bool.false_eq_true, if_false]
    rw [applyRanges_sorted_filter (softwareRanges mls lines) lines hdisj hfacts1]
  have hmain2 : (giInterimDeleteDuplicates nls lines2).1
      = DelRes.wrote (filterIdx (fun i => !(coveredBy (interimRanges nls lines2) i)) 0 lines2) := by
    have hempty : nls.isEmpty = false := by
      cases nls with
      | nil => exact absurd rfl hne2
      | cons a l => rfl
    have hany : (nls.any (fun x => lines2.length ≤ x)) = false := by
      rw [List.any_eq_false]
      intro x hx
      simp only [decide_eq_true_eq, not_le]
      exact hlen2 x hx
    unfold giInterimDeleteDuplicates
    rw [hempty, hany]
    simp only [Bool.false_eq_true, if_false]
    rw [applyRanges_sorted_filter (interimRanges nls lines2) lines2 hdisj2 hfacts2]
  exact ⟨hmain1, hmain2,
    fun m s => findStart_char markerNameL lines m s,
    fun m => findEnd_char markerNameL lines m,
    fun m s => findStart_char markerCategoryL lines2 m s,
    fun m => findEnd_char (fun l => markerCategoryL l || isBlankLine l) lines2 m⟩

instance : DecidableRel rangesDisjoint := fun a b => by
  unfold rangesDisjoint
  infer_instance

/-- The interim-patch section buffer for the C3 witness: the match
index resolves to the block [0, 2) ending at the blank line. -/
def c3ILines : Buffer :=
  [("  - category: x".toList), ("    version: 1".toList), ([] : Line),
   ("  - category: y".toList)]

/-- Witness for C3's amended statement: for the software remover one
match index whose block is bounded by the end of the buffer, for the
interim remover one match index whose block ends at a blank line. -/
theorem c3_amended_witness :
    (([2] : List Nat) ≠ [] ∧ (∀ x ∈ ([2] : List Nat), x < c3Lines.length)
      ∧ List.Pairwise rangesDisjoint (softwareRanges [2] c3Lines)
      ∧ ([1] : List Nat) ≠ [] ∧ (∀ x ∈ ([1] : List Nat), x < c3ILines.length)
      ∧ List.Pairwise rangesDisjoint (interimRanges [1] c3ILines))
    ∧ (softwareDeleteDuplicates [2] c3Lines).1
        = DelRes.wrote (filterIdx (fun i => !(coveredBy (softwareRanges [2] c3Lines) i)) 0 c3Lines)
    ∧ (giInterimDeleteDuplicates [1] c3ILines).1
        = DelRes.wrote
            (filterIdx (fun i => !(coveredBy (interimRanges [1] c3ILines) i)) 0 c3ILines) := by
  have h := c3_amended [2] c3Lines [1] c3ILines (by decide) (by decide) (by decide)
    (by decide) (by decide) (by decide)
  exact ⟨⟨by decide, by decide, by decide, by decide, by decide, by decide⟩, h.1, h.2.1⟩

/-- The three-line opatch section on which the inserter's off-by-one
boundary shows. -/
def c9File : Buffer :=
  [("opatch_patches:".toList), ("  - \x7b release: \"1\" \x7d".toList), ("nextkey:".toList)]

/-- Claim C9, counterexample: the first non-indented, non-list-item
line after the header is index 2 (`nextkey:`), so the claimed splice
point is just before it; the code instead sets `opatch_end = j - 1`
and splices at index 1, BEFORE the section's existing entry. -/
theorem c9_counterexample :
    findIdxFrom isNonIndentedNonList c9File 1 = some 2
    ∧ opatchPatchInsertPatch [("NEW".toList)] c9File
        = some [("opatch_patches:".toList), ("NEW".toList),
                ("  - \x7b release: \"1\" \x7d".toList), ("nextkey:".toList)]
    ∧ [("opatch_patches:".toList), ("NEW".toList),
       ("  - \x7b release: \"1\" \x7d".toList), ("nextkey:".toList)]
      ≠ [("opatch_patches:".toList), ("  - \x7b release: \"1\" \x7d".toList),
         ("NEW".toList), ("nextkey:".toList)] := by decide

/-- Claim C9, amended: with the header present, the entries are
spliced as a contiguous run in input order at index `j - 1`, one line
BEFORE the first non-indented non-list-item line `j` after the header
(or appended at the end of the file when no such line exists). -/
theorem c9_amended (ps : List Line) (lines : Buffer) (i : Nat)
    (hi : findIdxFrom (isKeyLine keyOpatch) lines 0 = some i) :
    (∀ j, findIdxFrom isNonIndentedNonList lines (i + 1) = some j →
       opatchPatchInsertPatch ps lines
         = some (lines.take (j - 1) ++ ps ++ lines.drop (j - 1))
       ∧ isNonIndentedNonList (lineD lines j) = true
       ∧ (∀ k, i + 1 ≤ k → k < j → isNonIndentedNonList (lineD lines k) = false))
    ∧ (findIdxFrom isNonIndentedNonList lines (i + 1) = none →
       opatchPatchInsertPatch ps lines = some (lines ++ ps)) := by
  constructor
  · intro j hj
    rcases (findIdxFrom_some_iff lines (i + 1) j).mp hj with ⟨hj1, hj2, hj3, hj4⟩
    refine ⟨?_, hj3, hj4⟩
    simp only [opatchPatchInsertPatch, hi, hj]
    rw [insertSeq_eq ps (j - 1) lines (by omega)]
  · intro hn
    simp only [opatchPatchInsertPatch, hi, hn]
    rw [insertSeq_eq ps lines.length lines (le_refl _)]
    simp

/-- Witness for C9's amended statement on the concrete three-line
section. -/
theorem c9_amended_witness :
    (findIdxFrom (isKeyLine keyOpatch) c9File 0 = some 0
      ∧ findIdxFrom isNonIndentedNonList c9File (0 + 1) = some 2)
    ∧ opatchPatchInsertPatch [("NEW".toList)] c9File
        = some (c9File.take (2 - 1) ++ [("NEW".toList)] ++ c9File.drop (2 - 1)) :=
  ⟨⟨by decide, by decide⟩,
    ((c9_amended [("NEW".toList)] c9File 0 (by decide)).1 2 (by decide)).1⟩

theorem findFromAux_append_first {p : Line → Bool} :
    ∀ (pre : Buffer) (hdr : Line) (post : Buffer) (i : Nat),
      (∀ l ∈ pre, p l = false) → p hdr = true →
      findFromAux p (pre ++ hdr :: post) i = some (i + pre.length) := by
  intro pre
  induction pre with
  | nil =>
    intro hdr post i _ hh
    unfold findFromAux
    rw [List.nil_append]
    simp only [hh, if_true, List.length_nil, Nat.add_zero]
  | cons l pre ih =>
    intro hdr post i hpre hh
    rw [List.cons_append]
    unfold findFromAux
    rw [hpre l (by simp)]
    simp only [Bool.false_eq_true, if_false]
    rw [ih hdr post (i + 1) (fun x hx => hpre x (by simp [hx])) hh]
    simp only [Option.some_inj, List.length_cons]
    omega

/-- Claim C6, counterexample: `rdbms_software_compile_patch` does NOT
reverse the compiled list, so after the repeated insertions at
header + 1 the blocks sit in REVERSED input order (record B's block
above record A's). -/
def c6A : RdbmsSWRec := ⟨("A".toList), ("1".toList), Sum.inl ("EE".toList), []⟩

def c6B : RdbmsSWRec := ⟨("B".toList), ("2".toList), Sum.inl ("SE".toList), []⟩

def c6File : Buffer := [("rdbms_software:".toList), ("  old".toList), ([] : Line)]

theorem c6_counterexample :
    rdbmsSoftwareInsertPatch (rdbmsSoftwareCompilePatch [c6A, c6B]) c6File
      = some [("rdbms_software:".toList), fmtRdbmsSwBlock c6B, fmtRdbmsSwBlock c6A,
              ("  old".toList), ([] : Line)]
    ∧ fmtRdbmsSwBlock c6B ≠ fmtRdbmsSwBlock c6A := by decide

/-- Claim C6, amended: both software inserters splice every block
immediately after the section's header line, each insertion pushing
the previous ones down; `gi_software_compile_patch` reverses its list
first, so the gi blocks end up at the top of the section in the
original input order, while `rdbms_software_compile_patch` does not
reverse, so the rdbms blocks end up in reversed input order. -/
theorem c6_amended (rs : List SWRec) (qs : List RdbmsSWRec)
    (pre post pre2 post2 : Buffer) (hdr hdr2 : Line)
    (h1 : ∀ l ∈ pre, pyStrip l ≠ keyGiSoftware) (h2 : pyStrip hdr = keyGiSoftware)
    (h3 : ∀ l ∈ pre2, pyStrip l ≠ keyRdbmsSoftware) (h4 : pyStrip hdr2 = keyRdbmsSoftware) :
    giSoftwareInsertPatch (giSoftwareCompilePatch rs) (pre ++ hdr :: post)
      = some (pre ++ hdr :: (rs.map fmtGiSwBlock ++ post))
    ∧ rdbmsSoftwareInsertPatch (rdbmsSoftwareCompilePatch qs) (pre2 ++ hdr2 :: post2)
      = some (pre2 ++ hdr2 :: ((qs.map fmtRdbmsSwBlock).reverse ++ post2)) := by
  have key : ∀ (key : Line) (pre post : Buffer) (hdr : Line),
      (∀ l ∈ pre, pyStrip l ≠ key) → pyStrip hdr = key →
      ∀ (bs : List Line),
        (match findIdxFrom (isKeyLine key) (pre ++ hdr :: post) 0 with
         | none => (none : Option Buffer)
         | some i => some (bs.foldl (fun acc p => pyInsert (i + 1) p acc) (pre ++ hdr :: post)))
        = some (pre ++ hdr :: (bs.reverse ++ post)) := by
    intro key pre post hdr hpre hhdr bs
    have hfind : findIdxFrom (isKeyLine key) (pre ++ hdr :: post) 0 = some pre.length := by
      unfold findIdxFrom
      rw [List.drop_zero]
      have : findFromAux (isKeyLine key) (pre ++ hdr :: post) 0 = some (0 + pre.length) :=
        findFromAux_append_first pre hdr post 0
        (fun l hl => by
          show (pyStrip l == key) = false
          rw [beq_eq_false_iff_ne]
          exact hpre l hl)
        (by
          show (pyStrip hdr == key) = true
          rw [beq_iff_eq]
          exact hhdr)
      rw [this]
      simp
    rw [hfind]
    show some (bs.foldl (fun acc p => pyInsert (pre.length + 1) p acc) (pre ++ hdr :: post))
      = some (pre ++ hdr :: (bs.reverse ++ post))
    rw [foldl_pyInsert_eq (pre.length + 1) bs (pre ++ hdr :: post) (by simp)]
    have htake : (pre ++ hdr :: post).take (pre.length + 1) = pre ++ [hdr] := by
      rw [List.take_append_eq_append_take]
      rw [List.take_of_length_le (by omega)]
      congr 1
      have : pre.length + 1 - pre.length = 1 := by omega
      rw [this]
      rfl
    have hdrop : (pre ++ hdr :: post).drop (pre.length + 1) = post := by
      rw [List.drop_append_eq_append_drop]
      rw [List.drop_eq_nil_of_le (by omega)]
      have : pre.length + 1 - pre.length = 1 := by omega
      rw [this]
      rfl
    rw [htake, hdrop]
    simp
  constructor
  · have := key keyGiSoftware pre post hdr h1 h2 (giSoftwareCompilePatch rs)
    unfold giSoftwareCompilePatch at this
    rw [List.reverse_reverse] at this
    exact this
  · have := key keyRdbmsSoftware pre2 post2 hdr2 h3 h4 (rdbmsSoftwareCompilePatch qs)
    unfold rdbmsSoftwareCompilePatch at this
    exact this

/-- Witness for C6's amended statement: one gi record and one rdbms
record inserted below their headers. -/
theorem c6_amended_witness :
    ((∀ l ∈ ([] : Buffer), pyStrip l ≠ keyGiSoftware)
      ∧ pyStrip ("gi_software:".toList) = keyGiSoftware
      ∧ (∀ l ∈ ([] : Buffer), pyStrip l ≠ keyRdbmsSoftware)
      ∧ pyStrip ("rdbms_software:".toList) = keyRdbmsSoftware)
    ∧ (giSoftwareInsertPatch (giSoftwareCompilePatch [⟨("A".toList), ("1".toList), []⟩])
         ([] ++ ("gi_software:".toList) :: [("x:".toList)])
         = some ([] ++ ("gi_software:".toList) :: ([⟨("A".toList), ("1".toList), []⟩].map fmtGiSwBlock ++ [("x:".toList)]))
       ∧ rdbmsSoftwareInsertPatch (rdbmsSoftwareCompilePatch [c6A])
           ([] ++ ("rdbms_software:".toList) :: [("x:".toList)])
         = some ([] ++ ("rdbms_software:".toList) :: (([c6A].map fmtRdbmsSwBlock).reverse ++ [("x:".toList)]))) :=
  ⟨⟨by decide, by decide, by decide, by decide⟩,
    c6_amended [⟨("A".toList), ("1".toList), []⟩] [c6A] [] [("x:".toList)] [] [("x:".toList)]
      ("gi_software:".toList) ("rdbms_software:".toList)
      (by decide) (by decide) (by decide) (by decide)⟩

theorem takeWhile_append_all {p : Char → Bool} :
    ∀ (a : List Char) (x : Char) (b : List Char),
      (∀ c ∈ a, p c = true) → p x = false →
      ((a ++ x :: b).takeWhile p) = a := by
  intro a
  induction a with
  | nil =>
    intro x b _ hx
    simp [List.takeWhile, hx]
  | cons c a ih =>
    intro x b ha hx
    rw [List.cons_append]
    rw [List.takeWhile_cons]
    rw [ha c (by simp)]
    simp only [if_true]
    rw [ih x b (fun d hd => ha d (by simp [hd])) hx]

theorem matchReleaseAt_cons_ne {c : Char} (l : List Char) (h : c ≠ 'r') :
    matchReleaseAt (c :: l) = none := by
  unfold matchReleaseAt
  have hpre : startsL ("release".toList) (c :: l) = false := by
    show List.isPrefixOf ('r' :: "elease".toList) (c :: l) = false
    rw [List.isPrefixOf_cons₂]
    have : ('r' == c) = false := beq_eq_false_iff_ne.mpr (fun hh => h hh.symm)
    rw [this]
    rfl
  rw [hpre]
  rfl

theorem searchRelease_append_noR :
    ∀ (a rest : List Char), (∀ c ∈ a, c ≠ 'r') →
      searchRelease (a ++ rest) = searchRelease rest := by
  intro a
  induction a with
  | nil => intro rest _; rfl
  | cons c a ih =>
    intro rest h
    rw [List.cons_append]
    show (match matchReleaseAt (c :: (a ++ rest)) with
          | some g => some g
          | none => searchRelease (a ++ rest)) = searchRelease rest
    rw [matchReleaseAt_cons_ne (a ++ rest) (h c (by simp))]
    exact ih rest (fun d hd => h d (by simp [hd]))

theorem matchReleaseAt_hit (R rest : List Char) (hne : R ≠ [])
    (hgood : ∀ c ∈ R, isRelBad c = false) :
    matchReleaseAt (("release: \"".toList) ++ (R ++ '"' :: rest)) = some (pyStrip R) := by
  unfold matchReleaseAt
  rw [show startsL ("release".toList) (("release: \"".toList) ++ (R ++ '"' :: rest)) = true from rfl]
  simp only [if_true]
  rw [show (("release: \"".toList) ++ (R ++ '"' :: rest)).drop 7
        = ':' :: ' ' :: '"' :: (R ++ '"' :: rest) from rfl]
  have hg : (R ++ '"' :: rest).takeWhile (fun c => !isRelBad c) = R := by
    apply takeWhile_append_all
    · intro c hc
      rw [hgood c hc]
      rfl
    · rfl
  have hgE : ((R ++ '"' :: rest).takeWhile (fun c => !isRelBad c)).isEmpty = false := by
    rw [hg]
    cases R with
    | nil => exact absurd rfl hne
    | cons a t => rfl
  simp only [show dropWS (':' :: ' ' :: '"' :: (R ++ '"' :: rest))
        = ':' :: ' ' :: '"' :: (R ++ '"' :: rest) from rfl]
  simp only [show dropWS (' ' :: '"' :: (R ++ '"' :: rest)) = '"' :: (R ++ '"' :: rest) from rfl]
  simp only [hgE, hg]
  have hRE : R.isEmpty = false := by
    cases R with
    | nil => exact absurd rfl hne
    | cons a t => rfl
  rw [hRE]
  rfl

/-- The regex hit at a `release: ""` occurrence: the greedy path fails
at the closing quote, `\s*` gives back the space after the colon, the
group matches that space and `.strip()` reduces it to the empty
value. -/
theorem matchReleaseAt_hit_empty (rest : List Char) :
    matchReleaseAt (("release: \"".toList) ++ ('"' :: rest)) = some [] := by
  unfold matchReleaseAt
  rw [show startsL ("release".toList) (("release: \"".toList) ++ ('"' :: rest)) = true from rfl]
  simp only [if_true]
  rw [show (("release: \"".toList) ++ ('"' :: rest)).drop 7
        = ':' :: ' ' :: '"' :: '"' :: rest from rfl]
  simp only [show dropWS (':' :: ' ' :: '"' :: '"' :: rest)
        = ':' :: ' ' :: '"' :: '"' :: rest from rfl]
  simp only [show dropWS (' ' :: '"' :: '"' :: rest) = '"' :: '"' :: rest from rfl]
  have hg : (('"' :: rest).takeWhile (fun c => !isRelBad c)) = [] := by
    simp [List.takeWhile_cons, isRelBad]
  have hgE : (('"' :: rest).takeWhile (fun c => !isRelBad c)).isEmpty = true := by
    rw [hg]
    rfl
  simp only [hgE, if_true]
  rw [show (decide ((('"' :: '"' :: rest).length : Nat) < (' ' :: '"' :: '"' :: rest).length))
        = true from by simp only [List.length_cons, decide_eq_true_eq]; omega]
  rfl

/-- The whole-line search succeeds with the empty group at a
`release: ""` occurrence (no earlier start position can match). -/
theorem searchRelease_release_hit_empty (rest : List Char) :
    searchRelease (("release: \"".toList) ++ ('"' :: rest)) = some [] := by
  rw [show (("release: \"".toList) ++ ('"' :: rest))
        = 'r' :: (("elease: \"".toList) ++ ('"' :: rest)) from rfl]
  show (match matchReleaseAt ('r' :: (("elease: \"".toList) ++ ('"' :: rest))) with
        | some g => some g
        | none => searchRelease (("elease: \"".toList) ++ ('"' :: rest))) = some []
  rw [show ('r' :: (("elease: \"".toList) ++ ('"' :: rest)))
        = (("release: \"".toList) ++ ('"' :: rest)) from rfl]
  rw [matchReleaseAt_hit_empty]

/-- The record whose release value defeats the formatter/extractor
round trip. -/
def c5Rec : PatchRec :=
  ⟨("x".toList), ("x".toList), ("a,b".toList), ("1".toList), ("f".toList),
   ("s".toList), true, ("m".toList), false, false, ("d".toList)⟩

/-- Claim C5, counterexample: a stripped release value containing a
comma is formatted verbatim, but the detector's release regex stops
its group at the comma, so re-extraction yields a different value. -/
theorem c5_counterexample :
    c5Rec.release = ("a,b".toList)
    ∧ searchRelease (fmtOpatch c5Rec) = some ("a".toList)
    ∧ ("a".toList) ≠ ("a,b".toList) := by decide

theorem searchRelease_cons_none {c : Char} {l : List Char}
    (h : matchReleaseAt (c :: l) = none) :
    searchRelease (c :: l) = searchRelease l := by
  show (match matchReleaseAt (c :: l) with
        | some g => some g
        | none => searchRelease l) = searchRelease l
  rw [h]

theorem matchReleaseAt_opatch_mid (l : List Char) :
    matchReleaseAt ('r' :: (("y: \"OPatch\", ".toList) ++ l)) = none := by
  unfold matchReleaseAt
  rw [show startsL ("release".toList) ('r' :: (("y: \"OPatch\", ".toList) ++ l)) = false from rfl]
  rfl

theorem searchRelease_release_hit (R rest : List Char) (hne : R ≠ [])
    (hgood : ∀ c ∈ R, isRelBad c = false) :
    searchRelease (("release: \"".toList) ++ (R ++ '"' :: rest)) = some (pyStrip R) := by
  rw [show (("release: \"".toList) ++ (R ++ '"' :: rest))
        = 'r' :: (("elease: \"".toList) ++ (R ++ '"' :: rest)) from rfl]
  show (match matchReleaseAt ('r' :: (("elease: \"".toList) ++ (R ++ '"' :: rest))) with
        | some g => some g
        | none => searchRelease (("elease: \"".toList) ++ (R ++ '"' :: rest))) = some (pyStrip R)
  rw [show ('r' :: (("elease: \"".toList) ++ (R ++ '"' :: rest)))
        = (("release: \"".toList) ++ (R ++ '"' :: rest)) from rfl]
  rw [matchReleaseAt_hit R rest hne hgood]

/-- Claim C5, amended: for every record whose stripped release value
is free of the regex's group terminators (double quote, comma,
closing brace), formatting with `opatch_patch_compile_patch` and
re-extracting with the duplicate detector's release regex returns
exactly the original release value — the empty value included, which
the regex recovers by backtracking its `\s*` and matching the group
on the given-back whitespace, which then strips back to empty. -/
theorem c5_amended (p : PatchRec)
    (h1 : pyStrip p.release = p.release)
    (h3 : ∀ c ∈ p.release, isRelBad c = false) :
    searchRelease (fmtOpatch p) = some p.release := by
  have hfmt : fmtOpatch p
      = (("  - \x7b catego".toList) ++ 'r' :: (("y: \"OPatch\", ".toList)
          ++ (("release: \"".toList)
              ++ (p.release ++ '"' :: ((", patchnum: \"".toList) ++ pyStrip p.patchnum
                  ++ ("\", patchfile: \"".toList) ++ pyStrip p.patchfile
                  ++ ("\", md5sum: \"".toList) ++ pyStrip p.md5sum
                  ++ ("\" \x7d".toList)))))) := by
    unfold fmtOpatch
    rw [h1]
    simp
  rw [hfmt]
  rw [searchRelease_append_noR ("  - \x7b catego".toList) _ (by decide)]
  rw [searchRelease_cons_none (matchReleaseAt_opatch_mid _)]
  rw [searchRelease_append_noR ("y: \"OPatch\", ".toList) _ (by decide)]
  by_cases h2 : p.release = []
  · rw [h2]
    simp only [List.nil_append]
    exact searchRelease_release_hit_empty _
  · rw [searchRelease_release_hit p.release _ h2 h3]
    rw [h1]

/-- Witness for C5's amended statement on a realistic release value. -/
theorem c5_amended_witness :
    (pyStrip (("19.17.0.0.0".toList)) = ("19.17.0.0.0".toList)
      ∧ (∀ c ∈ ("19.17.0.0.0".toList), isRelBad c = false))
    ∧ searchRelease (fmtOpatch ⟨("x".toList), ("x".toList), ("19.17.0.0.0".toList), ("1".toList),
        ("f".toList), ("s".toList), true, ("m".toList), false, false, ("d".toList)⟩)
      = some ("19.17.0.0.0".toList) :=
  ⟨⟨by decide, by decide⟩,
    c5_amended ⟨("x".toList), ("x".toList), ("19.17.0.0.0".toList), ("1".toList),
        ("f".toList), ("s".toList), true, ("m".toList), false, false, ("d".toList)⟩
      (by decide) (by decide)⟩

theorem swScanAux_ge (key name version : Line) :
    ∀ (ls : Buffer) (i : Nat) (sk sn : Bool) (j : Nat),
      j ∈ swScanAux key name version ls i sk sn → i ≤ j := by
  intro ls
  induction ls with
  | nil => intro i sk sn j h; cases h
  | cons l ls ih =>
    intro i sk sn j h
    unfold swScanAux at h
    by_cases hsn : sn = true
    · rw [if_pos hsn] at h
      have := ih (i + 1) sk false j h
      omega
    · rw [if_neg hsn] at h
      by_cases hsk : sk = true
      · rw [if_pos hsk] at h
        by_cases hkey : pyStrip l = key
        · rw [if_pos hkey] at h
          have := ih (i + 1) false false j h
          omega
        · rw [if_neg hkey] at h
          have := ih (i + 1) true false j h
          omega
      · rw [if_neg hsk] at h
        by_cases hbl : isBlankLine l = true
        · rw [if_pos hbl] at h
          cases h
        · rw [if_neg hbl] at h
          by_cases hnm : matchNameField l = some name
          · rw [if_pos hnm] at h
            rcases List.mem_cons.mp h with rfl | h'
            · exact le_refl _
            · have := ih (i + 1) sk true j h'
              omega
          · rw [if_neg hnm] at h
            by_cases hvm : matchVersionField l = some version
            · rw [if_pos hvm] at h
              rcases List.mem_cons.mp h with rfl | h'
              · exact le_refl _
              · have := ih (i + 1) sk false j h'
                omega
            · rw [if_neg hvm] at h
              have := ih (i + 1) sk false j h
              omega

theorem swScanAux_skipNext_ge (key name version : Line)
    (ls : Buffer) (i : Nat) (sk : Bool) (j : Nat)
    (h : j ∈ swScanAux key name version ls i sk true) : i + 1 ≤ j := by
  cases ls with
  | nil => cases h
  | cons l ls =>
    unfold swScanAux at h
    rw [if_pos rfl] at h
    exact swScanAux_ge key name version ls (i + 1) sk false j h

theorem swScanAux_adjacent (key name version : Line) :
    ∀ (ls : Buffer) (i : Nat) (sk sn : Bool) (j : Nat),
      j ∈ swScanAux key name version ls i sk sn →
      matchNameField (lineD ls (j - i)) = some name →
      (j + 1) ∉ swScanAux key name version ls i sk sn := by
  intro ls
  induction ls with
  | nil => intro i sk sn j h; cases h
  | cons l ls ih =>
    intro i sk sn j h hname
    have hge := swScanAux_ge key name version (l :: ls) i sk sn j h
    have hshift : i < j → lineD (l :: ls) (j - i) = lineD ls (j - (i + 1)) := by
      intro hij
      have : j - i = (j - (i + 1)) + 1 := by omega
      rw [this]
      simp [lineD]
    unfold swScanAux at h ⊢
    by_cases hsn : sn = true
    · rw [if_pos hsn] at h ⊢
      have hj1 := swScanAux_ge key name version ls (i + 1) sk false j h
      exact ih (i + 1) sk false j h (by rw [← hshift (by omega)]; exact hname)
    · rw [if_neg hsn] at h ⊢
      by_cases hsk : sk = true
      · rw [if_pos hsk] at h ⊢
        by_cases hkey : pyStrip l = key
        · rw [if_pos hkey] at h ⊢
          have hj1 := swScanAux_ge key name version ls (i + 1) false false j h
          exact ih (i + 1) false false j h (by rw [← hshift (by omega)]; exact hname)
        · rw [if_neg hkey] at h ⊢
          have hj1 := swScanAux_ge key name version ls (i + 1) true false j h
          exact ih (i + 1) true false j h (by rw [← hshift (by omega)]; exact hname)
      · rw [if_neg hsk] at h ⊢
        by_cases hbl : isBlankLine l = true
        · rw [if_pos hbl] at h
          cases h
        · rw [if_neg hbl] at h ⊢
          by_cases hnm : matchNameField l = some name
          · rw [if_pos hnm] at h ⊢
            rcases List.mem_cons.mp h with rfl | h'
            · intro hc
              rcases List.mem_cons.mp hc with he | hc'
              · omega
              · have := swScanAux_skipNext_ge key name version ls (j + 1) sk (j + 1) hc'
                omega
            · have hj1 := swScanAux_ge key name version ls (i + 1) sk true j h'
              intro hc
              rcases List.mem_cons.mp hc with he | hc'
              · omega
              · exact ih (i + 1) sk true j h' (by rw [← hshift (by omega)]; exact hname) hc'
          · rw [if_neg hnm] at h ⊢
            by_cases hvm : matchVersionField l = some version
            · rw [if_pos hvm] at h ⊢
              rcases List.mem_cons.mp h with rfl | h'
              · exfalso
                apply hnm
                have : lineD (l :: ls) (j - j) = l := by simp [lineD]
                rw [← this]
                exact hname
              · have hj1 := swScanAux_ge key name version ls (i + 1) sk false j h'
                intro hc
                rcases List.mem_cons.mp hc with he | hc'
                · omega
                · exact ih (i + 1) sk false j h' (by rw [← hshift (by omega)]; exact hname) hc'
            · rw [if_neg hvm] at h ⊢
              have hj1 := swScanAux_ge key name version ls (i + 1) sk false j h
              exact ih (i + 1) sk false j h (by rw [← hshift (by omega)]; exact hname)

/-- Claim C8: in the software-section duplicate scan for one record,
whenever a reported line matched the record's name field, the
immediately following line was excluded from the independent
version-field match (the skip-next-line flag), so the next index is
never also reported — a single logical entry is not reported twice
from two adjacent lines. -/
theorem c8_name_match_skips_next (key name version : Line) (lines : Buffer) (idx : Nat)
    (h1 : idx ∈ giSwScanRecord key name version lines)
    (h2 : matchNameField (lineD lines idx) = some name) :
    (idx + 1) ∉ giSwScanRecord key name version lines := by
  cases lines with
  | nil => cases h1
  | cons l0 ls =>
    unfold giSwScanRecord at h1 ⊢
    have hge := swScanAux_ge key name version ls 1 true false idx h1
    have hshift : lineD (l0 :: ls) idx = lineD ls (idx - 1) := by
      have : idx = (idx - 1) + 1 := by omega
      rw [this]
      simp [lineD]
    apply swScanAux_adjacent key name version ls 1 true false idx h1
    rw [← hshift]
    exact h2

/-- Witness for C8: the record's name matches at index 2 and index 3
is not reported. -/
theorem c8_name_match_skips_next_witness :
    ((2 : Nat) ∈ giSwScanRecord keyGiSoftware ("X".toList) ("9".toList)
        [("top:".toList), ("gi_software:".toList), ("  - name: X".toList),
         ("    version: 9".toList), ("  - name: y".toList), ([] : Line)]
      ∧ matchNameField (lineD [("top:".toList), ("gi_software:".toList), ("  - name: X".toList),
         ("    version: 9".toList), ("  - name: y".toList), ([] : Line)] 2) = some ("X".toList))
    ∧ (2 + 1) ∉ giSwScanRecord keyGiSoftware ("X".toList) ("9".toList)
        [("top:".toList), ("gi_software:".toList), ("  - name: X".toList),
         ("    version: 9".toList), ("  - name: y".toList), ([] : Line)] :=
  ⟨⟨by decide, by decide⟩,
    c8_name_match_skips_next keyGiSoftware ("X".toList) ("9".toList) _ 2 (by decide) (by decide)⟩

/-- Count the section lines carrying the given identity (a parsed flow
entry whose stripped release or stripped patchnum matches — the same
identity the duplicate detector uses). -/
def countIdentity (release patchnum : Line) (b : Buffer) : Nat :=
  b.countP (fun l =>
    match parseFlowEntry l with
    | some kv =>
      ((lookupField ("release".toList) kv).map pyStrip == some release)
        || ((lookupField ("patchnum".toList) kv).map pyStrip == some patchnum)
    | none => false)

/-- The gi_patches record whose re-insertion after duplicate removal
fails. -/
def c1Rec : PatchRec :=
  ⟨("RU".toList), ("19.3".toList), ("19.17".toList), ("1".toList), ("p.zip".toList),
   ("/s".toList), true, ("a".toList), false, true, ("abc".toList)⟩

/-- A gi_patches section holding exactly one entry — the one the
incoming record duplicates. -/
def c1File : Buffer :=
  [("gi_patches:".toList), fmtPatchFlowLine c1Rec, ([] : Line), ("other:".toList)]

set_option maxRecDepth 20000 in
/-- Claim C1: the spec's detect→remove→insert property fails on the
code.  The file holds exactly one entry with the record's identity;
`gi_patch_search_duplicates` deletes that line, and
`gi_patches_insert_patch` then scans the now-empty section, hits the
blank line with no category/base anchor left, prints `Error: Empty
line found in gi_patches block` and returns without inserting — the
run ends with ZERO entries carrying the identity instead of exactly
one.  (Composition through `Option.bind` models the file round trip
between the two operations.) -/
theorem c1_detect_remove_insert_loses_entry :
    countIdentity ("19.17".toList) ("1".toList) c1File = 1
    ∧ (giPatchSearchDuplicates [c1Rec] c1File).bind (giPatchesInsertPatch [c1Rec])
        = some [("gi_patches:".toList), ([] : Line), ("other:".toList)]
    ∧ countIdentity ("19.17".toList) ("1".toList)
        [("gi_patches:".toList), ([] : Line), ("other:".toList)] = 0 := by decide

/-- Does the parsed flow entry at buffer index `i` carry field `k`
with value `v`?  (Specification-side reading of the scan's flag
updates.) -/
def entryFieldIs (lines : Buffer) (i : Nat) (k v : Line) : Bool :=
  match parseFlowEntry (lineD lines i) with
  | some kv => lookupField k kv == some v
  | none => false

/-- Has the record's category been seen on some entry line of
[s, j)? -/
def catSeenB (cat : Line) (lines : Buffer) (s j : Nat) : Bool :=
  (List.range' s (j - s)).any (fun i1 => entryFieldIs lines i1 ("category".toList) cat)

/-- Have both conditions held by index j: some entry line i2 in [s, j)
matches the base, with the category seen at or before i2? -/
def cbHeldB (cat base : Line) (lines : Buffer) (s j : Nat) : Bool :=
  (List.range' s (j - s)).any (fun i2 =>
    entryFieldIs lines i2 ("base".toList) base && catSeenB cat lines s (i2 + 1))

/-- The stop lines at which the code actually inserts: blank or
comment, except the `# -` comments its skip arm hops over. -/
def stopCodeB (l : Line) : Bool := stopLineB l && !startsL ("# -".toList) l

/-- The position the code inserts at: the first index of [s, e) that
is a code-stop line after both conditions hold. -/
def codeSortedPos (cat base : Line) (lines : Buffer) (s e : Nat) : Option Nat :=
  (List.range' s (e - s)).find? (fun j => stopCodeB (lineD lines j) && cbHeldB cat base lines s j)

/-- The position the claim describes: the first blank-or-comment line
(including `# -` comments) after both conditions hold. -/
def claimSortedPos (cat base : Line) (lines : Buffer) (s e : Nat) : Option Nat :=
  (List.range' s (e - s)).find? (fun j => stopLineB (lineD lines j) && cbHeldB cat base lines s j)

theorem dropWhile_append_singleton_ne {p : Char → Bool} {c : Char} (hc : p c = false) :
    ∀ (xs : List Char), (xs ++ [c]).dropWhile p ≠ [] := by
  intro xs
  induction xs with
  | nil =>
    simp [List.dropWhile, hc]
  | cons x xs ih =>
    rw [List.cons_append, List.dropWhile_cons]
    by_cases hx : p x = true
    · rw [if_pos hx]; exact ih
    · rw [Bool.not_eq_true] at hx
      rw [hx]
      simp

theorem pyStrip_cons_ne_nil {c : Char} (l : List Char) (hc : isPySpace c = false) :
    pyStrip (c :: l) ≠ [] := by
  unfold pyStrip
  rw [List.dropWhile_cons]
  rw [hc]
  simp only [Bool.false_eq_true, if_false]
  intro h
  rw [List.reverse_eq_nil_iff] at h
  have : (c :: l).reverse = l.reverse ++ [c] := by simp
  rw [this] at h
  exact dropWhile_append_singleton_ne hc l.reverse h

theorem blank_dropWS_nil {l : Line} (h : isBlankLine l = true) : dropWS l = [] := by
  induction l with
  | nil => rfl
  | cons c t ih =>
    unfold isBlankLine at h ih
    by_cases hc : isPySpace c = true
    · unfold dropWS
      rw [List.dropWhile_cons, hc]
      simp only [if_true]
      apply ih
      unfold pyStrip at h ⊢
      rw [List.dropWhile_cons, hc] at h
      simpa using h
    · rw [Bool.not_eq_true] at hc
      exfalso
      rw [List.isEmpty_iff] at h
      exact pyStrip_cons_ne_nil t hc h

theorem parseFlowEntry_blank {l : Line} (h : isBlankLine l = true) :
    parseFlowEntry l = none := by
  unfold parseFlowEntry
  rw [blank_dropWS_nil h]

theorem startsL_hash_shape {l : Line} (h : startsL ("#".toList) l = true) :
    ∃ r, l = '#' :: r := by
  cases l with
  | nil => cases h
  | cons c r =>
    refine ⟨r, ?_⟩
    have : ('#' == c) = true := by
      unfold startsL at h
      rw [show ("#".toList) = ['#'] from rfl] at h
      rw [List.isPrefixOf_cons₂] at h
      exact (Bool.and_eq_true_iff.mp h).1
    rw [beq_iff_eq] at this
    rw [← this]

theorem parseFlowEntry_hash {l : Line} (h : startsL ("#".toList) l = true) :
    parseFlowEntry l = none := by
  rcases startsL_hash_shape h with ⟨r, rfl⟩
  unfold parseFlowEntry
  rw [show dropWS ('#' :: r) = '#' :: r from rfl]
  rfl

theorem blank_not_hash {l : Line} (h : isBlankLine l = true) :
    startsL ("#".toList) l = false := by
  by_contra hc
  rw [Bool.not_eq_false] at hc
  rcases startsL_hash_shape hc with ⟨r, rfl⟩
  rw [show isBlankLine ('#' :: r) = (pyStrip ('#' :: r)).isEmpty from rfl] at h
  rw [List.isEmpty_iff] at h
  exact pyStrip_cons_ne_nil r (by decide) h

theorem blank_not_hashDash {l : Line} (h : isBlankLine l = true) :
    startsL ("# -".toList) l = false := by
  by_contra hc
  rw [Bool.not_eq_false] at hc
  have : startsL ("#".toList) l = true := by
    unfold startsL at hc ⊢
    cases l with
    | nil => cases hc
    | cons c r =>
      rw [show ("# -".toList) = '#' :: (" -".toList) from rfl] at hc
      rw [List.isPrefixOf_cons₂] at hc
      rw [show ("#".toList) = ['#'] from rfl, List.isPrefixOf_cons₂]
      rw [Bool.and_eq_true_iff] at hc
      rw [hc.1]
      simp
  rw [blank_not_hash h] at this
  cases this

theorem parse_some_not_stop {l : Line} {kv : List (Line × Line)}
    (h : parseFlowEntry l = some kv) : stopLineB l = false := by
  unfold stopLineB
  have h1 : isBlankLine l = false := by
    by_contra hc
    rw [Bool.not_eq_false] at hc
    rw [parseFlowEntry_blank hc] at h
    cases h
  have h2 : startsL ("#".toList) l = false := by
    by_contra hc
    rw [Bool.not_eq_false] at hc
    rw [parseFlowEntry_hash hc] at h
    cases h
  rw [h1, h2]
  rfl

theorem hashDash_starts_hash {l : Line} (h : startsL ("# -".toList) l = true) :
    startsL ("#".toList) l = true := by
  unfold startsL at h ⊢
  cases l with
  | nil => cases h
  | cons c r =>
    rw [show ("# -".toList) = '#' :: (" -".toList) from rfl] at h
    rw [List.isPrefixOf_cons₂] at h
    rw [show ("#".toList) = ['#'] from rfl, List.isPrefixOf_cons₂]
    rw [Bool.and_eq_true_iff] at h
    rw [h.1]
    simp

theorem find?_range'_some_iff (p : Nat → Bool) :
    ∀ (n s j : Nat),
      (List.range' s n).find? p = some j ↔
        (s ≤ j ∧ j < s + n ∧ p j = true ∧ ∀ k, s ≤ k → k < j → p k = false) := by
  intro n
  induction n with
  | zero =>
    intro s j
    simp only [List.range'_zero, List.find?_nil]
    constructor
    · intro h; cases h
    · intro ⟨h1, h2, _, _⟩; omega
  | succ n ih =>
    intro s j
    rw [List.range'_succ]
    by_cases hp : p s = true
    · rw [List.find?_cons_of_pos _ hp]
      simp only [Option.some_inj]
      constructor
      · rintro rfl
        exact ⟨le_refl _, by omega, hp, fun k hk1 hk2 => by omega⟩
      · rintro ⟨h1, _, _, h4⟩
        by_contra hne
        have := h4 s (le_refl _) (by omega)
        rw [this] at hp
        cases hp
    · rw [List.find?_cons_of_neg _ (by rw [Bool.not_eq_true] at hp; simp [hp])]
      rw [ih (s + 1) j]
      rw [Bool.not_eq_true] at hp
      constructor
      · rintro ⟨h1, h2, h3, h4⟩
        refine ⟨by omega, by omega, h3, ?_⟩
        intro k hk1 hk2
        by_cases hk : k = s
        · rw [hk]; exact hp
        · exact h4 k (by omega) hk2
      · rintro ⟨h1, h2, h3, h4⟩
        have hjs : j ≠ s := by
          intro he
          rw [he] at h3
          rw [h3] at hp
          cases hp
        exact ⟨by omega, by omega, h3, fun k hk1 hk2 => h4 k (by omega) hk2⟩

theorem find?_range'_none_iff (p : Nat → Bool) :
    ∀ (n s : Nat),
      (List.range' s n).find? p = none ↔ ∀ k, s ≤ k → k < s + n → p k = false := by
  intro n
  induction n with
  | zero =>
    intro s
    simp only [List.range'_zero, List.find?_nil]
    constructor
    · intro _ k hk1 hk2; omega
    · intro _; trivial
  | succ n ih =>
    intro s
    rw [List.range'_succ]
    by_cases hp : p s = true
    · rw [List.find?_cons_of_pos _ hp]
      constructor
      · intro h; cases h
      · intro h
        have := h s (le_refl _) (by omega)
        rw [this] at hp
        cases hp
    · rw [List.find?_cons_of_neg _ (by rw [Bool.not_eq_true] at hp; simp [hp])]
      rw [ih (s + 1)]
      rw [Bool.not_eq_true] at hp
      constructor
      · intro h k hk1 hk2
        by_cases hk : k = s
        · rw [hk]; exact hp
        · exact h k (by omega) (by omega)
      · intro h k hk1 hk2
        exact h k (by omega) (by omega)

theorem catSeenB_base (cat : Line) (lines : Buffer) (s : Nat) :
    catSeenB cat lines s s = false := by
  unfold catSeenB
  rw [Nat.sub_self]
  rfl

theorem cbHeldB_base (cat base : Line) (lines : Buffer) (s : Nat) :
    cbHeldB cat base lines s s = false := by
  unfold cbHeldB
  rw [Nat.sub_self]
  rfl

theorem catSeenB_succ (cat : Line) (lines : Buffer) (s j : Nat) (h : s ≤ j) :
    catSeenB cat lines s (j + 1)
      = (catSeenB cat lines s j || entryFieldIs lines j ("category".toList) cat) := by
  unfold catSeenB
  have h1 : j + 1 - s = (j - s) + 1 := by omega
  rw [h1, List.range'_concat, List.any_append]
  have h2 : s + 1 * (j - s) = j := by omega
  rw [h2]
  simp

theorem cbHeldB_succ (cat base : Line) (lines : Buffer) (s j : Nat) (h : s ≤ j) :
    cbHeldB cat base lines s (j + 1)
      = (cbHeldB cat base lines s j
          || (entryFieldIs lines j ("base".toList) base && catSeenB cat lines s (j + 1))) := by
  unfold cbHeldB
  have h1 : j + 1 - s = (j - s) + 1 := by omega
  rw [h1, List.range'_concat, List.any_append]
  have h2 : s + 1 * (j - s) = j := by omega
  rw [h2]
  simp [catSeenB]

theorem entryFieldIs_none {lines : Buffer} {i : Nat}
    (h : parseFlowEntry (lineD lines i) = none) (k v : Line) :
    entryFieldIs lines i k v = false := by
  unfold entryFieldIs
  rw [h]

theorem entryFieldIs_some {lines : Buffer} {i : Nat} {kv : List (Line × Line)}
    (h : parseFlowEntry (lineD lines i) = some kv) (k v : Line) :
    entryFieldIs lines i k v = (lookupField k kv == some v) := by
  unfold entryFieldIs
  rw [h]

theorem stopLineB_of_blank {l : Line} (h : isBlankLine l = true) : stopLineB l = true := by
  unfold stopLineB
  rw [h]
  rfl

theorem yamlNoneLine_of_blank {l : Line} (h : isBlankLine l = true) :
    yamlNoneLine l = true := by
  unfold yamlNoneLine
  rw [h]
  rfl

theorem scanLoop_char (cat base : Line) (lines : Buffer) (s b : Nat)
    (hblen : b < lines.length)
    (hb : isBlankLine (lineD lines b) = true)
    (hnoblank : ∀ j, s ≤ j → j < b → isBlankLine (lineD lines j) = false)
    (hkeys : ∀ j, s ≤ j → j < b → ∀ kv, parseFlowEntry (lineD lines j) = some kv →
      (lookupField ("category".toList) kv).isSome = true
        ∧ (lookupField ("base".toList) kv).isSome = true)
    (hshape : ∀ j, s ≤ j → j < b → parseFlowEntry (lineD lines j) = none →
      yamlNoneLine (lineD lines j) = true) :
    ∀ fuel idx, idx + fuel = b + 2 → s ≤ idx → idx ≤ b →
      (∀ k, s ≤ k → k < idx →
        (stopCodeB (lineD lines k) && cbHeldB cat base lines s k) = false) →
      patchesScanLoop cat base lines (b + 2) fuel
          (catSeenB cat lines s idx) (cbHeldB cat base lines s idx) idx
        = (match codeSortedPos cat base lines s (b + 2) with
           | some j => ScanRes.inserted j
           | none => ScanRes.errorBlank) := by
  intro fuel
  induction fuel with
  | zero => intro idx h1 h2 h3 _; omega
  | succ fuel ih =>
    intro idx h1 h2 h3 hinv
    unfold patchesScanLoop
    rw [if_pos (show idx < b + 2 by omega)]
    rw [if_neg (show ¬ (lines.length ≤ idx) by omega)]
    by_cases hib : idx = b
    · subst hib
      by_cases hcb : cbHeldB cat base lines s idx = true
      · rw [if_neg (show ¬(cbHeldB cat base lines s idx = false
            ∧ isBlankLine (lineD lines idx) = true) from by rw [hcb]; simp)]
        rw [if_neg (show ¬(startsL ("# -".toList) (lineD lines idx) = true) from by
          rw [blank_not_hashDash hb]; simp)]
        rw [parseFlowEntry_blank hb]
        rw [if_pos (yamlNoneLine_of_blank hb)]
        rw [if_pos ⟨hcb, stopLineB_of_blank hb⟩]
        have hpos : codeSortedPos cat base lines s (idx + 2) = some idx := by
          unfold codeSortedPos
          rw [find?_range'_some_iff]
          refine ⟨h2, by omega, ?_, ?_⟩
          · unfold stopCodeB
            rw [stopLineB_of_blank hb, blank_not_hashDash hb, hcb]
            rfl
          · intro k hk1 hk2
            exact hinv k hk1 hk2
        rw [hpos]
      · rw [Bool.not_eq_true] at hcb
        rw [if_pos ⟨hcb, hb⟩]
        have hpos : codeSortedPos cat base lines s (idx + 2) = none := by
          unfold codeSortedPos
          rw [find?_range'_none_iff]
          intro k hk1 hk2
          by_cases hkb : k < idx
          · exact hinv k hk1 hkb
          · have hk3 : k = idx ∨ k = idx + 1 := by omega
            rcases hk3 with rfl | rfl
            · rw [hcb]
              simp
            · have hcb1 : cbHeldB cat base lines s (idx + 1) = false := by
                rw [cbHeldB_succ cat base lines s idx h2]
                rw [entryFieldIs_none (parseFlowEntry_blank hb)]
                rw [hcb]
                rfl
              rw [hcb1]
              simp
        rw [hpos]
    · have hib' : idx < b := by omega
      have hnb : isBlankLine (lineD lines idx) = false := hnoblank idx h2 hib'
      rw [if_neg (show ¬(cbHeldB cat base lines s idx = false
          ∧ isBlankLine (lineD lines idx) = true) from by rw [hnb]; simp)]
      by_cases hhd : startsL ("# -".toList) (lineD lines idx) = true
      · rw [if_pos hhd]
        have hparse : parseFlowEntry (lineD lines idx) = none :=
          parseFlowEntry_hash (hashDash_starts_hash hhd)
        have hcs : catSeenB cat lines s (idx + 1) = catSeenB cat lines s idx := by
          rw [catSeenB_succ cat lines s idx h2, entryFieldIs_none hparse]
          simp
        have hcb2 : cbHeldB cat base lines s (idx + 1) = cbHeldB cat base lines s idx := by
          rw [cbHeldB_succ cat base lines s idx h2, entryFieldIs_none hparse]
          simp
        rw [← hcs, ← hcb2]
        apply ih (idx + 1) (by omega) (by omega) (by omega)
        intro k hk1 hk2
        by_cases hki : k < idx
        · exact hinv k hk1 hki
        · have : k = idx := by omega
          subst this
          unfold stopCodeB
          rw [hhd]
          simp
      · rw [if_neg hhd]
        cases hparse : parseFlowEntry (lineD lines idx) with
        | some kv =>
          rcases hkeys idx h2 hib' kv hparse with ⟨hk1, hk2⟩
          obtain ⟨cv, hcv⟩ := Option.isSome_iff_exists.mp hk1
          obtain ⟨bv, hbv⟩ := Option.isSome_iff_exists.mp hk2
          have hstop : stopLineB (lineD lines idx) = false := parse_some_not_stop hparse
          have hinv' : ∀ k, s ≤ k → k < idx + 1 →
              (stopCodeB (lineD lines k) && cbHeldB cat base lines s k) = false := by
            intro k hk1' hk2'
            by_cases hki : k < idx
            · exact hinv k hk1' hki
            · have : k = idx := by omega
              subst this
              unfold stopCodeB
              rw [hstop]
              simp
          have hcmeq : (catSeenB cat lines s idx || (cv == cat))
              = catSeenB cat lines s (idx + 1) := by
            rw [catSeenB_succ cat lines s idx h2, entryFieldIs_some hparse, hcv]
            rfl
          simp only [hparse, hcv]
          by_cases hcm : (catSeenB cat lines s idx || (cv == cat)) = true
          · rw [if_pos hcm]
            simp only [hbv]
            have hcbeq : (cbHeldB cat base lines s idx || (bv == base))
                = cbHeldB cat base lines s (idx + 1) := by
              rw [cbHeldB_succ cat base lines s idx h2, entryFieldIs_some hparse, hbv]
              rw [← hcmeq, hcm]
              simp
            rw [if_neg (show ¬((cbHeldB cat base lines s idx || (bv == base)) = true
                ∧ stopLineB (lineD lines idx) = true) from by rw [hstop]; simp)]
            rw [if_neg (show ¬(idx + 1 = b + 2) by omega)]
            rw [hcmeq, hcbeq]
            exact ih (idx + 1) (by omega) (by omega) (by omega) hinv'
          · rw [if_neg hcm]
            rw [if_neg (show ¬(cbHeldB cat base lines s idx = true
                ∧ stopLineB (lineD lines idx) = true) from by rw [hstop]; simp)]
            rw [if_neg (show ¬(idx + 1 = b + 2) by omega)]
            have hcbeq : cbHeldB cat base lines s (idx + 1) = cbHeldB cat base lines s idx := by
              rw [cbHeldB_succ cat base lines s idx h2, entryFieldIs_some hparse, hbv]
              rw [← hcmeq]
              rw [Bool.not_eq_true] at hcm
              rw [hcm]
              simp
            rw [hcmeq, ← hcbeq]
            exact ih (idx + 1) (by omega) (by omega) (by omega) hinv'
        | none =>
          rw [if_pos (hshape idx h2 hib' hparse)]
          have hcs : catSeenB cat lines s (idx + 1) = catSeenB cat lines s idx := by
            rw [catSeenB_succ cat lines s idx h2, entryFieldIs_none hparse]
            simp
          have hcb2 : cbHeldB cat base lines s (idx + 1) = cbHeldB cat base lines s idx := by
            rw [cbHeldB_succ cat base lines s idx h2, entryFieldIs_none hparse]
            simp
          by_cases hstop : cbHeldB cat base lines s idx = true
              ∧ stopLineB (lineD lines idx) = true
          · rw [if_pos hstop]
            have hpos : codeSortedPos cat base lines s (b + 2) = some idx := by
              unfold codeSortedPos
              rw [find?_range'_some_iff]
              refine ⟨h2, by omega, ?_, hinv⟩
              unfold stopCodeB
              rw [hstop.2, hstop.1]
              rw [Bool.not_eq_true] at hhd
              rw [hhd]
              rfl
            rw [hpos]
          · rw [if_neg hstop]
            rw [if_neg (show ¬(idx + 1 = b + 2) by omega)]
            rw [← hcs, ← hcb2]
            apply ih (idx + 1) (by omega) (by omega) (by omega)
            intro k hk1 hk2
            by_cases hki : k < idx
            · exact hinv k hk1 hki
            · have : k = idx := by omega
              subst this
              cases hsl : stopLineB (lineD lines k) with
              | false =>
                unfold stopCodeB
                rw [hsl]
                rfl
              | true =>
                have hcbf : cbHeldB cat base lines s k = false := by
                  by_contra hc
                  rw [Bool.not_eq_false] at hc
                  exact hstop ⟨hc, hsl⟩
                rw [hcbf]
                simp

theorem insertLoop_single_char (p : PatchRec) (lines : Buffer) (s b : Nat)
    (hsb : s ≤ b) (hblen : b < lines.length)
    (hb : isBlankLine (lineD lines b) = true)
    (hnoblank : ∀ j, s ≤ j → j < b → isBlankLine (lineD lines j) = false)
    (hkeys : ∀ j, s ≤ j → j < b → ∀ kv, parseFlowEntry (lineD lines j) = some kv →
      (lookupField ("category".toList) kv).isSome = true
        ∧ (lookupField ("base".toList) kv).isSome = true)
    (hshape : ∀ j, s ≤ j → j < b → parseFlowEntry (lineD lines j) = none →
      yamlNoneLine (lineD lines j) = true) :
    patchesInsertLoop s (b + 2) [p] lines false false s
      = (match codeSortedPos (pyStrip p.category) (pyStrip p.base) lines s (b + 2) with
         | some j => some (pyInsert j (fmtPatchFlowLine p) lines)
         | none => some lines) := by
  have hscan := scanLoop_char (pyStrip p.category) (pyStrip p.base) lines s b hblen hb
    hnoblank hkeys hshape (b + 2 - s) s (by omega) (le_refl _) hsb
    (fun k hk1 hk2 => ((lt_irrefl s (hk1.trans_lt hk2)).elim))
  rw [catSeenB_base, cbHeldB_base] at hscan
  cases hcp : codeSortedPos (pyStrip p.category) (pyStrip p.base) lines s (b + 2) with
  | some j =>
    rw [hcp] at hscan
    show patchesInsertLoop s (b + 2) [p] lines false false s
      = some (pyInsert j (fmtPatchFlowLine p) lines)
    unfold patchesInsertLoop
    rw [hscan]
    rfl
  | none =>
    rw [hcp] at hscan
    show patchesInsertLoop s (b + 2) [p] lines false false s = some lines
    unfold patchesInsertLoop
    rw [hscan]

/-- Claim C4, amended: on a section whose lines are each blank, a
comment, or a one-line flow entry carrying the `category` and `base`
keys (on any other line the loop raises uncaught), the sorted-position
inserter scans forward from the section start tracking the category
flag and then the base flag; it inserts the formatted one-line entry
immediately before the first blank line or comment line NOT beginning
with `# -` encountered after both conditions hold (the `# -` comment
lines are hopped over by the skip arm and never serve as the insertion
point), and when no such position exists in the section it reports an
error and returns without inserting that record.  The rdbms inserter
shares the identical loop. -/
theorem c4_amended (p : PatchRec) (lines : Buffer) (s b : Nat)
    (hreg : giPatchesRegion lines = some (s, b + 2))
    (hsb : s ≤ b) (hblen : b < lines.length)
    (hb : isBlankLine (lineD lines b) = true)
    (hnoblank : ∀ j, s ≤ j → j < b → isBlankLine (lineD lines j) = false)
    (hkeys : ∀ j, s ≤ j → j < b → ∀ kv, parseFlowEntry (lineD lines j) = some kv →
      (lookupField ("category".toList) kv).isSome = true
        ∧ (lookupField ("base".toList) kv).isSome = true)
    (hshape : ∀ j, s ≤ j → j < b → parseFlowEntry (lineD lines j) = none →
      yamlNoneLine (lineD lines j) = true) :
    (∀ j, codeSortedPos (pyStrip p.category) (pyStrip p.base) lines s (b + 2) = some j →
       giPatchesInsertPatch [p] lines = some (pyInsert j (fmtPatchFlowLine p) lines)
       ∧ stopCodeB (lineD lines j) = true
       ∧ cbHeldB (pyStrip p.category) (pyStrip p.base) lines s j = true
       ∧ (∀ k, s ≤ k → k < j →
            (stopCodeB (lineD lines k)
              && cbHeldB (pyStrip p.category) (pyStrip p.base) lines s k) = false))
    ∧ (codeSortedPos (pyStrip p.category) (pyStrip p.base) lines s (b + 2) = none →
       giPatchesInsertPatch [p] lines = some lines)
    ∧ (∀ (lines2 : Buffer) (s2 b2 : Nat),
        rdbmsPatchesRegion lines2 = some (s2, b2 + 2) → s2 ≤ b2 → b2 < lines2.length →
        isBlankLine (lineD lines2 b2) = true →
        (∀ j, s2 ≤ j → j < b2 → isBlankLine (lineD lines2 j) = false) →
        (∀ j, s2 ≤ j → j < b2 → ∀ kv, parseFlowEntry (lineD lines2 j) = some kv →
          (lookupField ("category".toList) kv).isSome = true
            ∧ (lookupField ("base".toList) kv).isSome = true) →
        (∀ j, s2 ≤ j → j < b2 → parseFlowEntry (lineD lines2 j) = none →
          yamlNoneLine (lineD lines2 j) = true) →
        ((∀ j, codeSortedPos (pyStrip p.category) (pyStrip p.base) lines2 s2 (b2 + 2) = some j →
            rdbmsPatchesInsertPatch [p] lines2 = some (pyInsert j (fmtPatchFlowLine p) lines2))
         ∧ (codeSortedPos (pyStrip p.category) (pyStrip p.base) lines2 s2 (b2 + 2) = none →
            rdbmsPatchesInsertPatch [p] lines2 = some lines2))) := by
  have hloop := insertLoop_single_char p lines s b hsb hblen hb hnoblank hkeys hshape
  refine ⟨?_, ?_, ?_⟩
  · intro j hj
    rcases (find?_range'_some_iff _ _ _ _).mp hj with ⟨hj1, hj2, hj3, hj4⟩
    rw [Bool.and_eq_true_iff] at hj3
    refine ⟨?_, hj3.1, hj3.2, hj4⟩
    unfold giPatchesInsertPatch
    rw [hreg]
    show patchesInsertLoop s (b + 2) [p] lines false false s = _
    rw [hloop, hj]
  · intro hn
    unfold giPatchesInsertPatch
    rw [hreg]
    show patchesInsertLoop s (b + 2) [p] lines false false s = _
    rw [hloop, hn]
  · intro lines2 s2 b2 hreg2 hsb2 hblen2 hb2 hnoblank2 hkeys2 hshape2
    have hloop2 := insertLoop_single_char p lines2 s2 b2 hsb2 hblen2 hb2 hnoblank2 hkeys2 hshape2
    constructor
    · intro j hj
      unfold rdbmsPatchesInsertPatch
      rw [hreg2]
      show patchesInsertLoop s2 (b2 + 2) [p] lines2 false false s2 = _
      rw [hloop2, hj]
    · intro hn
      unfold rdbmsPatchesInsertPatch
      rw [hreg2]
      show patchesInsertLoop s2 (b2 + 2) [p] lines2 false false s2 = _
      rw [hloop2, hn]

/-- The incoming record and section used for the C4 counterexample
and witness. -/
def c4Old2 : PatchRec :=
  ⟨("RU".toList), ("19.3".toList), ("19.18".toList), ("2".toList), ("p.zip".toList),
   ("/s".toList), true, ("a".toList), false, true, ("abc".toList)⟩

def c4New : PatchRec :=
  ⟨("RU".toList), ("19.3".toList), ("19.19".toList), ("3".toList), ("p.zip".toList),
   ("/s".toList), true, ("a".toList), false, true, ("abc".toList)⟩

def c4File : Buffer :=
  [("gi_patches:".toList), fmtPatchFlowLine c1Rec, ("# - old entry".toList),
   fmtPatchFlowLine c4Old2, ([] : Line), ("x:".toList)]

set_option maxRecDepth 20000 in
/-- Claim C4, counterexample: both conditions already hold at index 1
(the RU/19.3 entry), so the first blank-or-comment line after that is
the `# -` comment at index 2 and the claim says the record is inserted
immediately before it; the code skips `# -` lines and inserts at the
blank line, index 4. -/
theorem c4_counterexample :
    claimSortedPos (pyStrip c4New.category) (pyStrip c4New.base) c4File 1 6 = some 2
    ∧ giPatchesInsertPatch [c4New] c4File
        = some (pyInsert 4 (fmtPatchFlowLine c4New) c4File)
    ∧ pyInsert 4 (fmtPatchFlowLine c4New) c4File
        ≠ pyInsert 2 (fmtPatchFlowLine c4New) c4File := by decide

theorem forall_some_of_all {α : Type} {p : α → Bool} :
    ∀ (o : Option α), o.all p = true → ∀ x, o = some x → p x = true := by
  intro o h x hx
  rw [hx] at h
  simpa [Option.all] using h

def c4WFile : Buffer :=
  [("gi_patches:".toList), fmtPatchFlowLine c1Rec, ([] : Line), ("x:".toList)]

set_option maxRecDepth 20000 in
/-- Witness for C4's amended statement: a one-entry section whose
insertion point is the terminating blank line. -/
theorem c4_amended_witness :
    (giPatchesRegion c4WFile = some (1, 2 + 2)
      ∧ 1 ≤ 2 ∧ 2 < c4WFile.length
      ∧ isBlankLine (lineD c4WFile 2) = true
      ∧ codeSortedPos (pyStrip c4New.category) (pyStrip c4New.base) c4WFile 1 (2 + 2) = some 2)
    ∧ giPatchesInsertPatch [c4New] c4WFile
        = some (pyInsert 2 (fmtPatchFlowLine c4New) c4WFile) :=
  ⟨⟨by decide, by decide, by decide, by decide, by decide⟩,
    ((c4_amended c4New c4WFile 1 2 (by decide) (by decide) (by decide) (by decide)
        (fun j h1 h2 => by
          have hj : j = 1 := by omega
          subst hj
          decide)
        (fun j h1 h2 => by
          have hj : j = 1 := by omega
          subst hj
          intro kv hkv
          have h0 : (parseFlowEntry (lineD c4WFile 1)).all
              (fun kv => (lookupField ("category".toList) kv).isSome
                && (lookupField ("base".toList) kv).isSome) = true := by decide
          rw [hkv] at h0
          simp only [Option.all_some, Bool.and_eq_true] at h0
          exact h0)
        (fun j h1 h2 => by
          have hj : j = 1 := by omega
          subst hj
          decide)).1 2 (by decide)).1⟩
